import Mathlib

set_option maxHeartbeats 1000000

/-! # Shallow embedding of the ipc message format and client connection logic

This file embeds `src/source/ipc.cpp` (the exception-plus-flag variant of the
message writer/reader and the unix client socket constructor) and
`src/unnamed/part_000` (the status-flag-only variant) over byte lists.
Buffers are lists of natural numbers (bytes); the configurable fixed-width
unsigned integer `__MSG_LENGTH_TYPE__` of width `len_bytes` is modelled with
explicit reduction modulo `256 ^ len_bytes` where the code performs machine
arithmetic, and with explicit little-endian byte encoding where the code
reinterprets buffer bytes as that integer type. -/

/-- Bytes of `n` in little-endian order, `w` bytes wide (models storing a
fixed-width unsigned integer into raw buffer bytes; the value is implicitly
reduced modulo `256 ^ w`, matching the machine cast). -/
def encodeLE : Nat → Nat → List Nat
  | 0, _ => []
  | w + 1, n => n % 256 :: encodeLE w (n / 256)

/-- Value of a little-endian byte list (models loading a fixed-width unsigned
integer from raw buffer bytes). -/
def decodeLE : List Nat → Nat
  | [] => 0
  | b :: bs => b + 256 * decodeLE bs

/-- Position of the first zero byte, if any (models `memchr(p, 0, n)` applied
to the listed bytes). -/
def memchr : List Nat → Option Nat
  | [] => none
  | b :: bs => if b = 0 then some 0 else (memchr bs).map (fun i => i + 1)

/-- Type tags of message fields, in the declaration order their byte values
follow (`ipc::message::type_tag`). -/
inductive type_tag where
  | u32 | i32 | u64 | i64 | fp64 | str | chr | remote_ptr | blob
deriving DecidableEq

/-- Byte value of a tag (the `enum class` underlying value, 0 through 8 in
declaration order). -/
def tagByte : type_tag → Nat
  | .u32 => 0
  | .i32 => 1
  | .u64 => 2
  | .i64 => 3
  | .fp64 => 4
  | .str => 5
  | .chr => 6
  | .remote_ptr => 7
  | .blob => 8

/-- `ipc::message::to_string` from src/source/ipc.cpp lines 197-222. -/
def type_tag.to_string : type_tag → String
  | .u32 => "u32"
  | .i32 => "i32"
  | .u64 => "u64"
  | .i64 => "i64"
  | .fp64 => "fp64"
  | .str => "str"
  | .chr => "chr"
  | .remote_ptr => "remote_ptr"
  | .blob => "blob"

/-- Name of the tag denoted by a raw buffer byte, as produced by casting the
byte to `type_tag` and applying `to_string`; bytes outside the enumerators
reach the `default` branch and yield "unknown". -/
def tag_byte_name (b : Nat) : String :=
  if b = 0 then "u32"
  else if b = 1 then "i32"
  else if b = 2 then "u64"
  else if b = 3 then "i64"
  else if b = 4 then "fp64"
  else if b = 5 then "str"
  else if b = 6 then "chr"
  else if b = 7 then "remote_ptr"
  else if b = 8 then "blob"
  else "unknown"

/-- Failure values surfaced by the exception variant: `bad_message_exception`
(BadState), `message_overflow_exception` (Overflow, carrying required size and
capacity), `message_too_short_exception` (TooShort, carrying required size and
declared length), `type_mismach_exception` (TypeMismatch, carrying the observed
and expected tag names), `container_overflow_exception` (MalformedContainer)
and `socket_prepare_exception` (SocketPrepareFailed, carrying the OS error code
and the failing step's description). -/
inductive ipc_error where
  | bad_state
  | overflow (required total : Nat)
  | too_short (required total : Nat)
  | type_mismatch (got expected : String)
  | container_overflow
  | socket_prepare (code : Int) (what : String)
deriving DecidableEq

/-- Build-wide message configuration: whether fields carry a 1-byte type tag
(`__MSG_USE_TAGS__`) and the byte width of `__MSG_LENGTH_TYPE__`. -/
structure msg_config where
  use_tags : Bool
  len_bytes : Nat
deriving DecidableEq

/-- Message writer state: fail flag, accumulated buffer (length field
included at the front) and the fixed capacity `get_max_size()`. -/
structure out_message where
  m_ok : Bool
  m_buffer : List Nat
  max_size : Nat
deriving DecidableEq

/-- Message reader state: fail flag, wrapped buffer and cursor. -/
structure in_message where
  m_ok : Bool
  m_buffer : List Nat
  m_offset : Nat
deriving DecidableEq

/-- Modelled from the spec: the writer constructor and `clear` live in the
repository header that is not under src/. The spec says a writer is created
empty, holding only the length field. The source reads the stored length
(`used`) and compares it directly against buffer-absolute cursor positions and
against `get_max_size()`, so the stored length counts the length field itself:
an empty writer stores `sizeof(__MSG_LENGTH_TYPE__)`, i.e. `len_bytes`. -/
def out_message.init (cfg : msg_config) (max : Nat) : out_message :=
  ⟨true, encodeLE cfg.len_bytes cfg.len_bytes, max⟩

/-- Modelled from the spec: the reader constructor lives in the repository
header that is not under src/. The spec says a reader wraps a fully received
buffer with its cursor at the first field; the source indexes the buffer with
the cursor directly, so the cursor starts just past the length field. -/
def in_message.init (cfg : msg_config) (buf : List Nat) : in_message :=
  ⟨true, buf, cfg.len_bytes⟩

/-- `out_message::operator<<(const std::string_view&)` from src/source/ipc.cpp
lines 225-251 (exception variant). Checks the fail flag (`check_status`,
modelled from the spec as failing with BadState without mutation), computes
`new_used = used + len + delta` with `delta` covering the terminating zero and
the optional tag, signals Overflow when it exceeds capacity, otherwise appends
the optional tag byte, the string bytes and a terminating zero, then adds
`new_used` into the stored length field (the source performs `+=`). -/
def out_message.write_str (cfg : msg_config) (m : out_message) (s : List Nat) :
    out_message × Option ipc_error :=
  if m.m_ok = false then (m, some .bad_state)
  else
    let delta : Nat := if cfg.use_tags then 2 else 1
    let used := decodeLE (m.m_buffer.take cfg.len_bytes)
    let new_used := used + s.length + delta
    if m.max_size < new_used then
      ({ m with m_ok := false }, some (.overflow new_used m.max_size))
    else
      let buf1 := m.m_buffer ++ (if cfg.use_tags then [tagByte .str] else []) ++ s ++ [0]
      let hdr := (decodeLE (buf1.take cfg.len_bytes) + new_used) % 256 ^ cfg.len_bytes
      ({ m with m_buffer := encodeLE cfg.len_bytes hdr ++ buf1.drop cfg.len_bytes }, none)

/-- `out_message::operator<<(const std::pair<const uint8_t*, size_t>&)` from
src/source/ipc.cpp lines 253-280 (exception variant). Checks the fail flag,
computes `new_used = used + len + delta` with `delta` covering only the
optional tag (the source does not count the blob length sub-field), signals
Overflow when it exceeds capacity, otherwise appends the optional tag byte,
the length sub-field bytes and the blob bytes, then adds `new_used` into the
stored length field (the source performs `+=`). -/
def out_message.write_blob (cfg : msg_config) (m : out_message) (b : List Nat) :
    out_message × Option ipc_error :=
  if m.m_ok = false then (m, some .bad_state)
  else
    let delta : Nat := if cfg.use_tags then 1 else 0
    let used := decodeLE (m.m_buffer.take cfg.len_bytes)
    let new_used := used + b.length + delta
    if m.max_size < new_used then
      ({ m with m_ok := false }, some (.overflow new_used m.max_size))
    else
      let buf1 := m.m_buffer ++ (if cfg.use_tags then [tagByte .blob] else [])
        ++ encodeLE cfg.len_bytes b.length ++ b
      let hdr := (decodeLE (buf1.take cfg.len_bytes) + new_used) % 256 ^ cfg.len_bytes
      ({ m with m_buffer := encodeLE cfg.len_bytes hdr ++ buf1.drop cfg.len_bytes }, none)

/-- Modelled from the spec: the scalar append `out_message::push<T, tag>` lives
in the repository header that is not under src/. Per spec section 4.1: check
the fail flag, compute `required = current_used + payload_size + tag_size`,
signal Overflow when it exceeds capacity, otherwise append the optional tag
byte and the fixed-width value bytes, then overwrite the stored length field
with `required`. -/
def out_message.push (cfg : msg_config) (m : out_message) (k : Nat) (t : type_tag)
    (v : Nat) : out_message × Option ipc_error :=
  if m.m_ok = false then (m, some .bad_state)
  else
    let delta : Nat := (if cfg.use_tags then 1 else 0) + k
    let used := decodeLE (m.m_buffer.take cfg.len_bytes)
    let new_used := used + delta
    if m.max_size < new_used then
      ({ m with m_ok := false }, some (.overflow new_used m.max_size))
    else
      let buf1 := m.m_buffer ++ (if cfg.use_tags then [tagByte t] else []) ++ encodeLE k v
      ({ m with m_buffer := encodeLE cfg.len_bytes new_used ++ buf1.drop cfg.len_bytes },
        none)

/-- `in_message::operator>>(std::string&)` from src/source/ipc.cpp lines
282-318 (exception variant). Checks the fail flag, clears the output argument,
requires `delta` bytes (terminating zero plus the optional tag) at the cursor
within the declared length (TooShort), compares the tag byte when tagging is
enabled (TypeMismatch without advancing the cursor), advances past the tag,
scans for a terminating zero within the bytes remaining according to the
declared length (MalformedContainer when absent), then assigns the scanned
bytes and advances the cursor past the terminator. -/
def in_message.read_str (cfg : msg_config) (m : in_message) (arg : List Nat) :
    in_message × List Nat × Option ipc_error :=
  if m.m_ok = false then (m, arg, some .bad_state)
  else
    let size := decodeLE (m.m_buffer.take cfg.len_bytes)
    let delta : Nat := if cfg.use_tags then 2 else 1
    if size < m.m_offset + delta then
      ({ m with m_ok := false }, [], some (.too_short (m.m_offset + delta) size))
    else
      let tagb := m.m_buffer.getD m.m_offset 0
      if cfg.use_tags ∧ tagb ≠ tagByte .str then
        ({ m with m_ok := false }, [],
          some (.type_mismatch (tag_byte_name tagb) (type_tag.to_string .str)))
      else
        let o1 := m.m_offset + (if cfg.use_tags then 1 else 0)
        match memchr ((m.m_buffer.drop o1).take (size - o1)) with
        | none => ({ m with m_ok := false, m_offset := o1 }, [], some .container_overflow)
        | some i =>
          ({ m with m_offset := o1 + i + 1 },
            ((m.m_buffer.drop o1).take (size - o1)).take i, none)

/-- `in_message::operator>>(std::vector<uint8_t>&)` from src/source/ipc.cpp
lines 320-355 (exception variant). Checks the fail flag, requires `delta`
bytes (length sub-field plus the optional tag) at the cursor within the
declared length (TooShort), compares the tag byte when tagging is enabled
(TypeMismatch without advancing the cursor), advances past the tag, loads the
length sub-field and advances past it, re-validates that the sub-field's many
bytes still fit within the declared length (TooShort), then, only when the
sub-field is non-zero, resizes the output argument and copies that many bytes,
advancing the cursor past them. -/
def in_message.read_blob (cfg : msg_config) (m : in_message) (arg : List Nat) :
    in_message × List Nat × Option ipc_error :=
  if m.m_ok = false then (m, arg, some .bad_state)
  else
    let size := decodeLE (m.m_buffer.take cfg.len_bytes)
    let delta : Nat := (if cfg.use_tags then 1 else 0) + cfg.len_bytes
    if size < m.m_offset + delta then
      ({ m with m_ok := false }, arg, some (.too_short (m.m_offset + delta) size))
    else
      let tagb := m.m_buffer.getD m.m_offset 0
      if cfg.use_tags ∧ tagb ≠ tagByte .blob then
        ({ m with m_ok := false }, arg,
          some (.type_mismatch (tag_byte_name tagb) (type_tag.to_string .blob)))
      else
        let o1 := m.m_offset + (if cfg.use_tags then 1 else 0)
        let blob_len := decodeLE ((m.m_buffer.drop o1).take cfg.len_bytes)
        let o2 := o1 + cfg.len_bytes
        if size < o2 + blob_len then
          ({ m with m_ok := false, m_offset := o2 }, arg,
            some (.too_short (o2 + blob_len) size))
        else if blob_len = 0 then
          ({ m with m_offset := o2 }, arg, none)
        else
          ({ m with m_offset := o2 + blob_len }, (m.m_buffer.drop o2).take blob_len, none)

/-- Modelled from the spec: the scalar extract `in_message::pop<T, tag>` lives
in the repository header that is not under src/. Per spec section 4.2: check
the fail flag, require the tag byte plus the fixed payload to fit within the
declared length (TooShort, checked before any payload byte is read), compare
the tag byte when tagging is enabled (TypeMismatch without advancing the
cursor), then load the fixed-width value and advance the cursor by exactly the
consumed bytes. -/
def in_message.pop (cfg : msg_config) (m : in_message) (k : Nat) (t : type_tag) :
    in_message × Nat × Option ipc_error :=
  if m.m_ok = false then (m, 0, some .bad_state)
  else
    let size := decodeLE (m.m_buffer.take cfg.len_bytes)
    let delta : Nat := (if cfg.use_tags then 1 else 0) + k
    if size < m.m_offset + delta then
      ({ m with m_ok := false }, 0, some (.too_short (m.m_offset + delta) size))
    else
      let tagb := m.m_buffer.getD m.m_offset 0
      if cfg.use_tags ∧ tagb ≠ tagByte t then
        ({ m with m_ok := false }, 0,
          some (.type_mismatch (tag_byte_name tagb) (type_tag.to_string t)))
      else
        let o1 := m.m_offset + (if cfg.use_tags then 1 else 0)
        ({ m with m_offset := o1 + k }, decodeLE ((m.m_buffer.drop o1).take k), none)

/-- Typed values a message carries: a fixed-width scalar (byte width, tag and
value), a string, or a blob. -/
inductive value where
  | scalar (k : Nat) (t : type_tag) (v : Nat)
  | vstr (s : List Nat)
  | vblob (b : List Nat)
deriving DecidableEq

/-- Append one value with the matching writer operation. -/
def out_message.write_value (cfg : msg_config) (m : out_message) :
    value → out_message × Option ipc_error
  | .scalar k t v => out_message.push cfg m k t v
  | .vstr s => out_message.write_str cfg m s
  | .vblob b => out_message.write_blob cfg m b

/-- Append a list of values in order, threading the writer state. -/
def out_message.write_all (cfg : msg_config) (m : out_message) :
    List value → out_message
  | [] => m
  | v :: vs => out_message.write_all cfg (out_message.write_value cfg m v).1 vs

/-- Extract one value with the reader operation matching the given value's
shape (same scalar width and tag), starting from an empty output argument. -/
def in_message.read_value (cfg : msg_config) (m : in_message) :
    value → in_message × value × Option ipc_error
  | .scalar k t _ =>
    let r := in_message.pop cfg m k t
    (r.1, .scalar k t r.2.1, r.2.2)
  | .vstr _ =>
    let r := in_message.read_str cfg m []
    (r.1, .vstr r.2.1, r.2.2)
  | .vblob _ =>
    let r := in_message.read_blob cfg m []
    (r.1, .vblob r.2.1, r.2.2)

/-- Extract a list of values in order, threading the reader state. -/
def in_message.read_all (cfg : msg_config) (m : in_message) :
    List value → in_message × List value
  | [] => (m, [])
  | v :: vs =>
    let r := in_message.read_value cfg m v
    let rest := in_message.read_all cfg r.1 vs
    (rest.1, r.2.1 :: rest.2)

/-- Wire bytes of one field: optional tag byte, then the payload (scalar
bytes; string bytes plus terminating zero; blob length sub-field plus blob
bytes). -/
def field_bytes (cfg : msg_config) : value → List Nat
  | .scalar k t v => (if cfg.use_tags then [tagByte t] else []) ++ encodeLE k v
  | .vstr s => (if cfg.use_tags then [tagByte .str] else []) ++ s ++ [0]
  | .vblob b =>
    (if cfg.use_tags then [tagByte .blob] else []) ++ encodeLE cfg.len_bytes b.length ++ b

/-- Validity of a value for the round-trip claim: scalars fit their declared
width, strings carry no embedded NUL byte, blobs are unrestricted. -/
def validValue : value → Prop
  | .scalar k _ v => v < 256 ^ k
  | .vstr s => ∀ b ∈ s, b ≠ 0
  | .vblob _ => True

/-- Side fact established by a successful blob append: the blob length fits
the length sub-field, so the reader decodes it back exactly. -/
def blob_fits (cfg : msg_config) : value → Prop
  | .vblob b => b.length < 256 ^ cfg.len_bytes
  | _ => True

/-- `out_message::operator<<(const std::string_view&)` from
src/unnamed/part_000 lines 152-176 (status-flag variant). Identical layout
logic to the exception variant, but the entry fail-flag check is absent and an
overflow only clears `m_ok`. -/
def out_message.write_str2 (cfg : msg_config) (m : out_message) (s : List Nat) :
    out_message :=
  let delta : Nat := if cfg.use_tags then 2 else 1
  let used := decodeLE (m.m_buffer.take cfg.len_bytes)
  let new_used := used + s.length + delta
  if m.max_size < new_used then { m with m_ok := false }
  else
    let buf1 := m.m_buffer ++ (if cfg.use_tags then [tagByte .str] else []) ++ s ++ [0]
    let hdr := (decodeLE (buf1.take cfg.len_bytes) + new_used) % 256 ^ cfg.len_bytes
    { m with m_buffer := encodeLE cfg.len_bytes hdr ++ buf1.drop cfg.len_bytes }

/-- `out_message::operator<<(const std::pair<const uint8_t*, size_t>&)` from
src/unnamed/part_000 lines 178-203 (status-flag variant). Identical layout
logic to the exception variant, but the entry fail-flag check is absent and an
overflow only clears `m_ok`. -/
def out_message.write_blob2 (cfg : msg_config) (m : out_message) (b : List Nat) :
    out_message :=
  let delta : Nat := if cfg.use_tags then 1 else 0
  let used := decodeLE (m.m_buffer.take cfg.len_bytes)
  let new_used := used + b.length + delta
  if m.max_size < new_used then { m with m_ok := false }
  else
    let buf1 := m.m_buffer ++ (if cfg.use_tags then [tagByte .blob] else [])
      ++ encodeLE cfg.len_bytes b.length ++ b
    let hdr := (decodeLE (buf1.take cfg.len_bytes) + new_used) % 256 ^ cfg.len_bytes
    { m with m_buffer := encodeLE cfg.len_bytes hdr ++ buf1.drop cfg.len_bytes }

/-- `in_message::operator>>(std::string&)` from src/unnamed/part_000 lines
215-255 (status-flag variant). Same decoding logic as the exception variant
inside an `if (m_ok)` guard; failures only clear `m_ok`. -/
def in_message.read_str2 (cfg : msg_config) (m : in_message) (arg : List Nat) :
    in_message × List Nat :=
  if m.m_ok then
    let size := decodeLE (m.m_buffer.take cfg.len_bytes)
    let delta : Nat := if cfg.use_tags then 2 else 1
    if size < m.m_offset + delta then ({ m with m_ok := false }, [])
    else
      let tagb := m.m_buffer.getD m.m_offset 0
      if cfg.use_tags ∧ tagb ≠ tagByte .str then ({ m with m_ok := false }, [])
      else
        let o1 := m.m_offset + (if cfg.use_tags then 1 else 0)
        match memchr ((m.m_buffer.drop o1).take (size - o1)) with
        | none => ({ m with m_ok := false, m_offset := o1 }, [])
        | some i =>
          ({ m with m_offset := o1 + i + 1 },
            ((m.m_buffer.drop o1).take (size - o1)).take i)
  else (m, arg)

/-- `in_message::operator>>(std::vector<uint8_t>&)` from src/unnamed/part_000
lines 257-301 (status-flag variant). Same decoding logic as the exception
variant inside an `if (m_ok)` guard; failures only clear `m_ok`. -/
def in_message.read_blob2 (cfg : msg_config) (m : in_message) (arg : List Nat) :
    in_message × List Nat :=
  if m.m_ok then
    let size := decodeLE (m.m_buffer.take cfg.len_bytes)
    let delta : Nat := (if cfg.use_tags then 1 else 0) + cfg.len_bytes
    if size < m.m_offset + delta then ({ m with m_ok := false }, arg)
    else
      let tagb := m.m_buffer.getD m.m_offset 0
      if cfg.use_tags ∧ tagb ≠ tagByte .blob then ({ m with m_ok := false }, arg)
      else
        let o1 := m.m_offset + (if cfg.use_tags then 1 else 0)
        let blob_len := decodeLE ((m.m_buffer.drop o1).take cfg.len_bytes)
        let o2 := o1 + cfg.len_bytes
        if size < o2 + blob_len then ({ m with m_ok := false, m_offset := o2 }, arg)
        else if blob_len = 0 then ({ m with m_offset := o2 }, arg)
        else ({ m with m_offset := o2 + blob_len }, (m.m_buffer.drop o2).take blob_len)
  else (m, arg)

/-- POSIX error codes used by the client connect loop (Linux values). -/
def EAGAIN : Int := 11

/-- POSIX error code ECONNREFUSED (Linux value). -/
def ECONNREFUSED : Int := 111

/-- POSIX error code EINPROGRESS (Linux value). -/
def EINPROGRESS : Int := 115

/-- POSIX error code ENOENT (Linux value). -/
def ENOENT : Int := 2

/-- Transient connect error classification from src/source/ipc.cpp line 147:
`EAGAIN`, `ECONNREFUSED` or `EINPROGRESS` warrant sleep and retry. -/
def transient_error (e : Int) : Bool :=
  e = EAGAIN ∨ e = ECONNREFUSED ∨ e = EINPROGRESS

/-- Environment of one client construction: outcome of socket allocation,
the endpoint-existence probe (`is_socket_exists`), the outcome of the i-th
`connect` call (`none` is success, `some e` a failure with error code `e`),
and the outcome of `set_non_blocking_mode`. -/
structure client_env where
  alloc_ok : Bool
  target_present : Bool
  connect_result : Nat → Option Int
  non_blocking_ok : Bool

/-- Observable outcome of a client construction: final fail flag, surfaced
failure, number of `connect` calls and number of backoff sleeps. -/
structure client_result where
  m_ok : Bool
  error : Option ipc_error
  connect_calls : Nat
  sleep_calls : Nat
deriving DecidableEq

/-- `max_attempts_count` from src/source/ipc.cpp line 139. -/
def max_attempts_count : Nat := 10

/-- Connect retry loop from src/source/ipc.cpp lines 140-154, structured over
the remaining attempt budget: while attempts remain, call `connect`; success
exits the loop, a transient failure sleeps one second and retries, any other
failure fails immediately with SocketPrepareFailed. An exhausted budget fails
with SocketPrepareFailed carrying the last observed error code
(`get_socket_error` after the loop). -/
def connect_loop (env : client_env) : Nat → Nat → Nat → Nat → Int → client_result
  | 0, _, calls, sleeps, last =>
    ⟨false, some (.socket_prepare last "unable to connect"), calls, sleeps⟩
  | r + 1, attempt, calls, sleeps, _ =>
    match env.connect_result attempt with
    | none => ⟨true, none, calls + 1, sleeps⟩
    | some e =>
      if transient_error e then connect_loop env r (attempt + 1) (calls + 1) (sleeps + 1) e
      else ⟨false, some (.socket_prepare e "unable to connect"), calls + 1, sleeps⟩

/-- `unix_client_socket::unix_client_socket` from src/source/ipc.cpp lines
118-161: allocate the socket (failure signals SocketPrepareFailed), verify the
target endpoint exists (absence signals SocketPrepareFailed with ENOENT before
any connect call), run the bounded connect retry loop, then enable
non-blocking mode (failure signals SocketPrepareFailed). -/
def unix_client_socket (env : client_env) : client_result :=
  if env.alloc_ok = false then
    ⟨false, some (.socket_prepare 0 "unable to allocate socket"), 0, 0⟩
  else if env.target_present = false then
    ⟨false, some (.socket_prepare ENOENT "target does not exist"), 0, 0⟩
  else
    let r := connect_loop env max_attempts_count 0 0 0 0
    if r.m_ok then
      if env.non_blocking_ok then r
      else { r with m_ok := false,
                    error := some (.socket_prepare 0 "unable to enable non blocking mode") }
    else r

theorem encodeLE_length (w n : Nat) : (encodeLE w n).length = w := by
  induction w generalizing n with
  | zero => rfl
  | succ w ih => simp [encodeLE, ih]

theorem decodeLE_encodeLE (w n : Nat) : decodeLE (encodeLE w n) = n % 256 ^ w := by
  induction w generalizing n with
  | zero => simp [encodeLE, decodeLE, Nat.mod_one]
  | succ w ih => rw [encodeLE, decodeLE, ih, pow_succ', Nat.mod_mul]

theorem take_encodeLE_append (w n : Nat) (p : List Nat) :
    (encodeLE w n ++ p).take w = encodeLE w n := by
  have h := List.take_left (encodeLE w n) p
  rwa [encodeLE_length] at h

theorem drop_encodeLE_append (w n : Nat) (p : List Nat) :
    (encodeLE w n ++ p).drop w = p := by
  have h := List.drop_left (encodeLE w n) p
  rwa [encodeLE_length] at h

theorem memchr_of_no_zero (l : List Nat) (h : ∀ b ∈ l, b ≠ 0) : memchr l = none := by
  induction l with
  | nil => rfl
  | cons b bs ih =>
    have hb : b ≠ 0 := h b (List.mem_cons_self b bs)
    have hs : ∀ x ∈ bs, x ≠ 0 := fun x hx => h x (List.mem_cons_of_mem b hx)
    simp [memchr, hb, ih hs]

theorem memchr_append_zero (s t : List Nat) (h : ∀ b ∈ s, b ≠ 0) :
    memchr (s ++ 0 :: t) = some s.length := by
  induction s with
  | nil => simp [memchr]
  | cons b bs ih =>
    have hb : b ≠ 0 := h b (List.mem_cons_self b bs)
    have hs : ∀ x ∈ bs, x ≠ 0 := fun x hx => h x (List.mem_cons_of_mem b hx)
    simp [memchr, hb, ih hs]

/-- C1: the claim that each successful append leaves the header length field
equal to the payload bytes appended so far (equivalently, that each append
overwrites the field with the computed required size) fails on the code: both
source variants add the required size into the field (`+=` at
src/source/ipc.cpp line 247) instead of overwriting it. Appending the one-byte
string "a" to an empty untagged writer (two-byte length field, capacity 100)
succeeds with required size 4, yet stores 6: neither the payload bytes
appended (2), nor the whole buffer size (4), nor the required size (4). -/
theorem c1_header_added_not_overwritten :
    (out_message.write_str ⟨false, 2⟩ (out_message.init ⟨false, 2⟩ 100) [97]).2 = none ∧
    (out_message.write_str ⟨false, 2⟩ (out_message.init ⟨false, 2⟩ 100) [97]).1.m_buffer
      = [6, 0, 97, 0] ∧
    decodeLE (((out_message.write_str ⟨false, 2⟩
        (out_message.init ⟨false, 2⟩ 100) [97]).1.m_buffer).take 2) = 6 ∧
    ((6 : Nat) ≠ 2 ∧ (6 : Nat) ≠ 4) := by
  decide

/-- C3: the claim that the blob required size includes the blob length
sub-field, and hence that no successful append makes the buffer exceed
capacity, fails on the code: src/source/ipc.cpp line 265 computes
`new_used = used + len + delta` with `delta` covering only the optional tag,
omitting the `sizeof(__MSG_LENGTH_TYPE__)` sub-field it then inserts.
Appending a 2-byte blob to an empty untagged writer with a two-byte length
field and capacity 5 passes the overflow check (required computed as 4) yet
commits a 6-byte buffer, exceeding the capacity. -/
theorem c3_blob_capacity_exceeded :
    (out_message.write_blob ⟨false, 2⟩ (out_message.init ⟨false, 2⟩ 5) [1, 2]).2 = none ∧
    (out_message.write_blob ⟨false, 2⟩
      (out_message.init ⟨false, 2⟩ 5) [1, 2]).1.m_buffer.length = 6 ∧
    (out_message.write_blob ⟨false, 2⟩ (out_message.init ⟨false, 2⟩ 5) [1, 2]).1.max_size
      < (out_message.write_blob ⟨false, 2⟩
          (out_message.init ⟨false, 2⟩ 5) [1, 2]).1.m_buffer.length := by
  decide

/-- C5: every operation on a writer or reader whose fail flag is already
false returns the state unchanged (buffer, header length, cursor and output
argument untouched, flag still false) and re-signals failure as BadState. -/
theorem c5_latched_failure (cfg : msg_config) (m : out_message) (mr : in_message)
    (s b arg : List Nat) (k : Nat) (t : type_tag) (v : Nat)
    (hm : m.m_ok = false) (hr : mr.m_ok = false) :
    out_message.write_str cfg m s = (m, some .bad_state) ∧
    out_message.write_blob cfg m b = (m, some .bad_state) ∧
    out_message.push cfg m k t v = (m, some .bad_state) ∧
    in_message.read_str cfg mr arg = (mr, arg, some .bad_state) ∧
    in_message.read_blob cfg mr arg = (mr, arg, some .bad_state) ∧
    in_message.pop cfg mr k t = (mr, 0, some .bad_state) := by
  simp [out_message.write_str, out_message.write_blob, out_message.push,
    in_message.read_str, in_message.read_blob, in_message.pop, hm, hr]

/-- C5 witness: a concrete failed writer refuses a string append, returning
BadState with its state unchanged. -/
theorem c5_latched_failure_witness :
    out_message.write_str ⟨true, 2⟩ ⟨false, [2, 0], 64⟩ [97]
      = (⟨false, [2, 0], 64⟩, some .bad_state) :=
  (c5_latched_failure ⟨true, 2⟩ ⟨false, [2, 0], 64⟩ ⟨false, [2, 0], 2⟩
    [97] [1] [9] 4 .u32 7 rfl rfl).1

/-- C7: with tagging enabled, when the byte at the cursor differs from the
expected tag, each read operation fails with TypeMismatch carrying the
observed and the expected tag names, leaves the cursor (and the rest of the
state other than the fail flag) unchanged, and latches the reader failed. -/
theorem c7_type_mismatch (cfg : msg_config) (mr : in_message) (arg : List Nat)
    (k : Nat) (t : type_tag) (htags : cfg.use_tags = true) (hok : mr.m_ok = true) :
    (¬ decodeLE (mr.m_buffer.take cfg.len_bytes) < mr.m_offset + 2 →
      mr.m_buffer.getD mr.m_offset 0 ≠ tagByte .str →
      in_message.read_str cfg mr arg
        = ({ mr with m_ok := false }, [],
            some (.type_mismatch (tag_byte_name (mr.m_buffer.getD mr.m_offset 0))
              (type_tag.to_string .str)))) ∧
    (¬ decodeLE (mr.m_buffer.take cfg.len_bytes) < mr.m_offset + (1 + cfg.len_bytes) →
      mr.m_buffer.getD mr.m_offset 0 ≠ tagByte .blob →
      in_message.read_blob cfg mr arg
        = ({ mr with m_ok := false }, arg,
            some (.type_mismatch (tag_byte_name (mr.m_buffer.getD mr.m_offset 0))
              (type_tag.to_string .blob)))) ∧
    (¬ decodeLE (mr.m_buffer.take cfg.len_bytes) < mr.m_offset + (1 + k) →
      mr.m_buffer.getD mr.m_offset 0 ≠ tagByte t →
      in_message.pop cfg mr k t
        = ({ mr with m_ok := false }, 0,
            some (.type_mismatch (tag_byte_name (mr.m_buffer.getD mr.m_offset 0))
              (type_tag.to_string t)))) := by
  refine ⟨fun h1 h2 => ?_, fun h1 h2 => ?_, fun h1 h2 => ?_⟩ <;>
    rw [List.getD_eq_getElem?_getD] at h2
  · simp [in_message.read_str, hok, htags, h1, h2]
  · simp [in_message.read_blob, hok, htags, h1, h2]
  · simp [in_message.pop, hok, htags, h1, h2]

/-- C7 witness: a tagged reader positioned on a blob tag byte (8) refuses a
string read with TypeMismatch naming the observed tag "blob" and the expected
tag "str", leaving the cursor at 2. -/
theorem c7_type_mismatch_witness :
    in_message.read_str ⟨true, 2⟩ ⟨true, [5, 0, 8, 0, 0], 2⟩ []
      = (⟨false, [5, 0, 8, 0, 0], 2⟩, [],
          some (.type_mismatch "blob" "str")) :=
  (c7_type_mismatch ⟨true, 2⟩ ⟨true, [5, 0, 8, 0, 0], 2⟩ [] 4 .u32 rfl rfl).1
    (by decide) (by decide)

/-- C6: a string read scans for the terminating zero only within the bytes
remaining according to the declared length: whenever every byte of that window
is nonzero the read fails with MalformedContainer (the
`container_overflow_exception`), latching the reader failed — regardless of
any zero bytes the buffer may hold beyond the window. MalformedContainer is
distinct from every TooShort failure. -/
theorem c6_terminator_window (cfg : msg_config) (mr : in_message) (arg : List Nat)
    (hok : mr.m_ok = true)
    (hfit : ¬ decodeLE (mr.m_buffer.take cfg.len_bytes)
        < mr.m_offset + (if cfg.use_tags then 2 else 1))
    (htag : cfg.use_tags = true → mr.m_buffer.getD mr.m_offset 0 = tagByte .str)
    (hwin : ∀ x ∈ (mr.m_buffer.drop
        (mr.m_offset + (if cfg.use_tags then 1 else 0))).take
        (decodeLE (mr.m_buffer.take cfg.len_bytes)
          - (mr.m_offset + (if cfg.use_tags then 1 else 0))), x ≠ 0) :
    in_message.read_str cfg mr arg
      = ({ mr with
            m_ok := false
            m_offset := mr.m_offset + (if cfg.use_tags then 1 else 0) }, [],
          some .container_overflow) ∧
    ∀ r t2 : Nat, ipc_error.container_overflow ≠ ipc_error.too_short r t2 := by
  refine ⟨?_, by intro r t2 h; cases h⟩
  have hm := memchr_of_no_zero _ hwin
  cases htags : cfg.use_tags with
  | false =>
    rw [htags] at hfit hm
    have h1 : ¬ decodeLE (mr.m_buffer.take cfg.len_bytes) < mr.m_offset + 1 := by
      simpa using hfit
    have hm2 : memchr ((mr.m_buffer.drop mr.m_offset).take
        (decodeLE (mr.m_buffer.take cfg.len_bytes) - mr.m_offset)) = none := by
      simpa using hm
    simp [in_message.read_str, hok, htags, h1, hm2]
  | true =>
    rw [htags] at hfit hm
    have h1 : ¬ decodeLE (mr.m_buffer.take cfg.len_bytes) < mr.m_offset + 2 := by
      simpa using hfit
    have hm2 : memchr ((mr.m_buffer.drop (mr.m_offset + 1)).take
        (decodeLE (mr.m_buffer.take cfg.len_bytes) - (mr.m_offset + 1))) = none := by
      simpa using hm
    have h3 := htag htags
    rw [List.getD_eq_getElem?_getD] at h3
    simp [in_message.read_str, hok, htags, h1, hm2, h3]

/-- C6 witness: an untagged reader over the buffer [4,0,65,66,0,99] with
declared length 4 and cursor 2 scans only the two-byte window [65,66]; it
fails with MalformedContainer even though a zero byte sits in the buffer right
after the window (index 4). -/
theorem c6_terminator_window_witness :
    in_message.read_str ⟨false, 2⟩ ⟨true, [4, 0, 65, 66, 0, 99], 2⟩ []
      = (⟨false, [4, 0, 65, 66, 0, 99], 2⟩, [], some .container_overflow) ∧
    [4, 0, 65, 66, 0, 99].getD 4 1 = 0 :=
  ⟨by
    have h := (c6_terminator_window ⟨false, 2⟩ ⟨true, [4, 0, 65, 66, 0, 99], 2⟩ []
      rfl (by decide) (by intro h; cases h) (by decide)).1
    exact h, by decide⟩

/-- C10: a blob read whose length sub-field decodes to zero succeeds while
leaving the caller's output argument exactly as passed in (neither cleared nor
resized), advancing the cursor past the tag and sub-field only; by contrast a
string read's output never depends on the passed-in argument (it is cleared
before decoding). -/
theorem c10_zero_length_blob_frame (cfg : msg_config) (mr : in_message)
    (arg : List Nat) (hok : mr.m_ok = true)
    (hfit : ¬ decodeLE (mr.m_buffer.take cfg.len_bytes)
        < mr.m_offset + ((if cfg.use_tags then 1 else 0) + cfg.len_bytes))
    (htag : cfg.use_tags = true → mr.m_buffer.getD mr.m_offset 0 = tagByte .blob)
    (hzero : decodeLE ((mr.m_buffer.drop
        (mr.m_offset + (if cfg.use_tags then 1 else 0))).take cfg.len_bytes) = 0) :
    in_message.read_blob cfg mr arg
      = ({ mr with m_offset :=
            mr.m_offset + (if cfg.use_tags then 1 else 0) + cfg.len_bytes }, arg, none) ∧
    ∀ a2 : List Nat,
      (in_message.read_str cfg mr arg).2.1 = (in_message.read_str cfg mr a2).2.1 := by
  constructor
  · cases htags : cfg.use_tags with
    | false =>
      rw [htags] at hfit hzero
      simp only [Bool.false_eq_true, if_false, Nat.add_zero, Nat.zero_add] at hfit hzero
      have h4 : ¬ decodeLE (mr.m_buffer.take cfg.len_bytes)
          < mr.m_offset + cfg.len_bytes + 0 := by omega
      simp [in_message.read_blob, hok, htags, hfit, hzero, h4]
    | true =>
      rw [htags] at hfit hzero
      simp only [if_true, Nat.add_zero, Nat.zero_add] at hfit hzero
      have h3 := htag htags
      rw [List.getD_eq_getElem?_getD] at h3
      have h4 : ¬ decodeLE (mr.m_buffer.take cfg.len_bytes)
          < mr.m_offset + 1 + cfg.len_bytes := by omega
      simp [in_message.read_blob, hok, htags, hfit, hzero, h3, h4]
  · intro a2
    simp [in_message.read_str, hok]

/-- C10 witness: an untagged zero-length blob read over [4,0,0,0] leaves the
passed-in output [7,7] untouched and succeeds with the cursor moved from 2 to
4. -/
theorem c10_zero_length_blob_frame_witness :
    in_message.read_blob ⟨false, 2⟩ ⟨true, [4, 0, 0, 0], 2⟩ [7, 7]
      = (⟨true, [4, 0, 0, 0], 4⟩, [7, 7], none) :=
  (c10_zero_length_blob_frame ⟨false, 2⟩ ⟨true, [4, 0, 0, 0], 2⟩ [7, 7]
    rfl (by decide) (by intro h; cases h) (by decide)).1

/-- C9: the claim that the two writer/reader implementations are behaviorally
equivalent apart from error-signaling style fails on the code: the status-flag
variant's writer operators perform no fail-flag check. After an overflow
latches both writers failed (capacity 3, appending "ab"), appending the empty
string leaves the exception variant's buffer untouched at [2,0] (BadState),
while the status-flag variant commits the append and produces [5,0,0]. -/
theorem c9_variants_diverge_after_failure :
    (out_message.write_str ⟨false, 2⟩
      (out_message.write_str ⟨false, 2⟩ (out_message.init ⟨false, 2⟩ 3) [97, 98]).1
      []).1.m_buffer = [2, 0] ∧
    (out_message.write_str2 ⟨false, 2⟩
      (out_message.write_str2 ⟨false, 2⟩ (out_message.init ⟨false, 2⟩ 3) [97, 98])
      []).m_buffer = [5, 0, 0] ∧
    (out_message.write_str ⟨false, 2⟩
      (out_message.write_str ⟨false, 2⟩ (out_message.init ⟨false, 2⟩ 3) [97, 98]).1
      []).1.m_buffer ≠
    (out_message.write_str2 ⟨false, 2⟩
      (out_message.write_str2 ⟨false, 2⟩ (out_message.init ⟨false, 2⟩ 3) [97, 98])
      []).m_buffer := by
  decide

/-- C9 (amended): as long as an operation starts from a state whose fail flag
is still true, the two variants agree exactly — same resulting buffer, header
length, cursor, fail-flag transition and extracted bytes, the exception
variant merely returning the failure as a typed value in addition; the reader
operations agree from every state. The divergence is confined to writer
operations invoked on an already-failed writer, which the status-flag variant
does not guard. -/
theorem c9_variants_agree_until_failure (cfg : msg_config) (m : out_message)
    (mr : in_message) (s b arg : List Nat) :
    (m.m_ok = true →
      (out_message.write_str cfg m s).1 = out_message.write_str2 cfg m s ∧
      (out_message.write_blob cfg m b).1 = out_message.write_blob2 cfg m b) ∧
    ((in_message.read_str cfg mr arg).1, (in_message.read_str cfg mr arg).2.1)
      = in_message.read_str2 cfg mr arg ∧
    ((in_message.read_blob cfg mr arg).1, (in_message.read_blob cfg mr arg).2.1)
      = in_message.read_blob2 cfg mr arg := by
  refine ⟨fun hok => ⟨?_, ?_⟩, ?_, ?_⟩
  · simp only [out_message.write_str, out_message.write_str2,
      if_neg (show ¬ m.m_ok = false by simp [hok])]
    split_ifs <;> rfl
  · simp only [out_message.write_blob, out_message.write_blob2,
      if_neg (show ¬ m.m_ok = false by simp [hok])]
    split_ifs <;> rfl
  · cases hok : mr.m_ok with
    | false => simp [in_message.read_str, in_message.read_str2, hok]
    | true =>
      simp only [in_message.read_str, in_message.read_str2,
        if_neg (show ¬ mr.m_ok = false by simp [hok]), if_pos hok]
      rcases hmem : memchr ((mr.m_buffer.drop
          (mr.m_offset + (if cfg.use_tags then 1 else 0))).take
          (decodeLE (mr.m_buffer.take cfg.len_bytes)
            - (mr.m_offset + (if cfg.use_tags then 1 else 0)))) with _ | i <;>
        simp only [hmem] <;> split_ifs <;> rfl
  · cases hok : mr.m_ok with
    | false => simp [in_message.read_blob, in_message.read_blob2, hok]
    | true =>
      simp only [in_message.read_blob, in_message.read_blob2,
        if_neg (show ¬ mr.m_ok = false by simp [hok]), if_pos hok]
      split_ifs <;> rfl

/-- C9 (amended) witness: on a live writer both variants produce the same
state for a concrete string append. -/
theorem c9_variants_agree_until_failure_witness :
    (out_message.write_str ⟨false, 2⟩ (out_message.init ⟨false, 2⟩ 10) [97]).1
      = out_message.write_str2 ⟨false, 2⟩ (out_message.init ⟨false, 2⟩ 10) [97] :=
  ((c9_variants_agree_until_failure ⟨false, 2⟩ (out_message.init ⟨false, 2⟩ 10)
    (in_message.init ⟨false, 2⟩ []) [97] [] []).1 rfl).1

theorem connect_loop_nontransient (env : client_env) (errs : Nat → Int) :
    ∀ k r a c s l e, k < r →
      (∀ i, i < k → env.connect_result (a + i) = some (errs (a + i)) ∧
        transient_error (errs (a + i)) = true) →
      env.connect_result (a + k) = some e → transient_error e = false →
      connect_loop env r a c s l
        = ⟨false, some (.socket_prepare e "unable to connect"), c + k + 1, s + k⟩ := by
  intro k
  induction k with
  | zero =>
    intro r a c s l e hk htr he hnt
    cases r with
    | zero => omega
    | succ r =>
      rw [Nat.add_zero] at he
      simp [connect_loop, he, hnt]
  | succ k ih =>
    intro r a c s l e hk htr he hnt
    cases r with
    | zero => omega
    | succ r =>
      have h0 := htr 0 (Nat.succ_pos k)
      rw [Nat.add_zero] at h0
      have hrec := ih r (a + 1) (c + 1) (s + 1) (errs a) e (by omega)
        (fun i hi => by
          have := htr (i + 1) (by omega)
          rwa [show a + (i + 1) = a + 1 + i by omega] at this)
        (by rwa [show a + 1 + k = a + (k + 1) by omega]) hnt
      rw [connect_loop, h0.1]
      simp only [h0.2, if_true]
      rw [hrec]
      congr 1 <;> omega

theorem connect_loop_success (env : client_env) (errs : Nat → Int) :
    ∀ k r a c s l, k < r →
      (∀ i, i < k → env.connect_result (a + i) = some (errs (a + i)) ∧
        transient_error (errs (a + i)) = true) →
      env.connect_result (a + k) = none →
      connect_loop env r a c s l = ⟨true, none, c + k + 1, s + k⟩ := by
  intro k
  induction k with
  | zero =>
    intro r a c s l hk htr he
    cases r with
    | zero => omega
    | succ r =>
      rw [Nat.add_zero] at he
      simp [connect_loop, he]
  | succ k ih =>
    intro r a c s l hk htr he
    cases r with
    | zero => omega
    | succ r =>
      have h0 := htr 0 (Nat.succ_pos k)
      rw [Nat.add_zero] at h0
      have hrec := ih r (a + 1) (c + 1) (s + 1) (errs a) (by omega)
        (fun i hi => by
          have := htr (i + 1) (by omega)
          rwa [show a + (i + 1) = a + 1 + i by omega] at this)
        (by rwa [show a + 1 + k = a + (k + 1) by omega])
      rw [connect_loop, h0.1]
      simp only [h0.2, if_true]
      rw [hrec]
      congr 1 <;> omega

theorem connect_loop_exhausted (env : client_env) (errs : Nat → Int) :
    ∀ r a c s l, 0 < r →
      (∀ i, i < r → env.connect_result (a + i) = some (errs (a + i)) ∧
        transient_error (errs (a + i)) = true) →
      connect_loop env r a c s l
        = ⟨false, some (.socket_prepare (errs (a + r - 1)) "unable to connect"),
            c + r, s + r⟩ := by
  intro r
  induction r with
  | zero => intro a c s l hr; omega
  | succ r ih =>
    intro a c s l hr htr
    have h0 := htr 0 (Nat.succ_pos r)
    rw [Nat.add_zero] at h0
    rw [connect_loop, h0.1]
    simp only [h0.2, if_true]
    cases hr0 : r with
    | zero =>
      subst hr0
      simp [connect_loop]
    | succ r2 =>
      subst hr0
      have hrec := ih (a + 1) (c + 1) (s + 1) (errs a) (Nat.succ_pos r2)
        (fun i hi => by
          have := htr (i + 1) (by omega)
          rwa [show a + (i + 1) = a + 1 + i by omega] at this)
      rw [hrec, show a + 1 + (r2 + 1) - 1 = a + (r2 + 1 + 1) - 1 by omega]
      congr 1 <;> omega

/-- C8: client endpoint construction. With the socket allocated, an absent
target endpoint fails immediately with SocketPrepareFailed and performs no
connect call. Otherwise connect is attempted at most `max_attempts_count` (10)
times: each transient failure (EAGAIN, ECONNREFUSED or EINPROGRESS) sleeps the
one-second backoff and retries; a non-transient failure at attempt `k` fails
immediately with SocketPrepareFailed after exactly `k + 1` connect calls and
`k` sleeps; ten transient failures exhaust the budget and fail with
SocketPrepareFailed after exactly 10 connect calls; a success at attempt `k`
connects after `k + 1` calls and `k` sleeps. -/
theorem c8_client_connect_retry (env : client_env) (errs : Nat → Int)
    (k : Nat) (e : Int) :
    (env.alloc_ok = true → env.target_present = false →
      unix_client_socket env
        = ⟨false, some (.socket_prepare ENOENT "target does not exist"), 0, 0⟩) ∧
    (env.alloc_ok = true → env.target_present = true → k < max_attempts_count →
      (∀ i, i < k → env.connect_result i = some (errs i) ∧
        transient_error (errs i) = true) →
      env.connect_result k = some e → transient_error e = false →
      unix_client_socket env
        = ⟨false, some (.socket_prepare e "unable to connect"), k + 1, k⟩) ∧
    (env.alloc_ok = true → env.target_present = true →
      (∀ i, i < max_attempts_count → env.connect_result i = some (errs i) ∧
        transient_error (errs i) = true) →
      unix_client_socket env
        = ⟨false, some (.socket_prepare (errs 9) "unable to connect"), 10, 10⟩) ∧
    (env.alloc_ok = true → env.target_present = true → k < max_attempts_count →
      (∀ i, i < k → env.connect_result i = some (errs i) ∧
        transient_error (errs i) = true) →
      env.connect_result k = none → env.non_blocking_ok = true →
      unix_client_socket env = ⟨true, none, k + 1, k⟩) := by
  refine ⟨fun ha hp => ?_, fun ha hp hk htr he hnt => ?_, fun ha hp htr => ?_,
    fun ha hp hk htr he hnb => ?_⟩
  · simp [unix_client_socket, ha, hp]
  · have hl := connect_loop_nontransient env errs k max_attempts_count 0 0 0 0 e hk
      (fun i hi => by simpa using htr i hi) (by simpa using he) hnt
    simp [unix_client_socket, ha, hp, hl]
  · have hl := connect_loop_exhausted env errs max_attempts_count 0 0 0 0
      (by simp [max_attempts_count]) (fun i hi => by simpa using htr i hi)
    simp only [max_attempts_count] at hl
    norm_num at hl
    simp [unix_client_socket, ha, hp, hl, max_attempts_count]
  · have hl := connect_loop_success env errs k max_attempts_count 0 0 0 0 hk
      (fun i hi => by simpa using htr i hi) (by simpa using he)
    simp [unix_client_socket, ha, hp, hl, hnb]

/-- C8 witness: in an environment where the target exists, the first three
connect calls fail with ECONNREFUSED (111, transient) and the fourth succeeds,
construction succeeds after exactly 4 connect calls and 3 backoff sleeps. -/
theorem c8_client_connect_retry_witness :
    unix_client_socket ⟨true, true, fun i => if i < 3 then some 111 else none, true⟩
      = ⟨true, none, 4, 3⟩ :=
  (c8_client_connect_retry
    ⟨true, true, fun i => if i < 3 then some 111 else none, true⟩
    (fun _ => 111) 3 0).2.2.2 rfl rfl (by decide) (by decide) (by decide) rfl

theorem take_append_at (l₁ l₂ : List Nat) (n : Nat) (h : n = l₁.length) :
    (l₁ ++ l₂).take n = l₁ := by
  subst h
  exact List.take_left l₁ l₂

theorem drop_append_at (l₁ l₂ : List Nat) (n : Nat) (h : n = l₁.length) :
    (l₁ ++ l₂).drop n = l₂ := by
  subst h
  exact List.drop_left l₁ l₂

theorem getD_append_at (l₁ l₂ : List Nat) (x n dflt : Nat) (h : n = l₁.length) :
    (l₁ ++ x :: l₂).getD n dflt = x := by
  subst h
  rw [List.getD_append_right l₁ (x :: l₂) dflt l₁.length (le_refl _)]
  simp

theorem memchr_take (s t : List Nat) (n : Nat) (hn : s.length + 1 ≤ n)
    (h : ∀ b ∈ s, b ≠ 0) : memchr ((s ++ 0 :: t).take n) = some s.length := by
  obtain ⟨i, hi⟩ : ∃ i, n = (s ++ [0]).length + i :=
    ⟨n - s.length - 1, by simp; omega⟩
  subst hi
  rw [show s ++ 0 :: t = (s ++ [0]) ++ t by simp, List.take_append]
  rw [show (s ++ [0]) ++ t.take i = s ++ 0 :: t.take i by simp]
  exact memchr_append_zero s _ h

/-- Writer invariant relating a live writer to an explicit stored length value
`h` and payload `p`: the buffer is the encoded length field followed by the
payload, the stored value fits the field, and it dominates the length-field
width plus payload length (the `+=` update only ever inflates it). -/
def writer_inv (cfg : msg_config) (m : out_message) (h : Nat) (p : List Nat) : Prop :=
  m.m_ok = true ∧ m.m_buffer = encodeLE cfg.len_bytes h ++ p ∧
  h < 256 ^ cfg.len_bytes ∧ cfg.len_bytes + p.length ≤ h

theorem write_value_bad (cfg : msg_config) (m : out_message) (v : value)
    (h : m.m_ok = false) : out_message.write_value cfg m v = (m, some .bad_state) := by
  cases v <;> simp [out_message.write_value, out_message.write_str,
    out_message.write_blob, out_message.push, h]

theorem write_all_ok_false (cfg : msg_config) :
    ∀ (vs : List value) (m : out_message), m.m_ok = false →
      (out_message.write_all cfg m vs).m_ok = false := by
  intro vs
  induction vs with
  | nil => intro m h; exact h
  | cons v vs ih =>
    intro m h
    rw [out_message.write_all, write_value_bad cfg m v h]
    exact ih m h

theorem write_value_step (cfg : msg_config) (m : out_message) (v : value)
    (h : Nat) (p : List Nat)
    (hmax : 2 * m.max_size < 256 ^ cfg.len_bytes)
    (hv : validValue v)
    (hinv : writer_inv cfg m h p)
    (hok2 : (out_message.write_value cfg m v).1.m_ok = true) :
    ∃ h2, writer_inv cfg (out_message.write_value cfg m v).1 h2
        (p ++ field_bytes cfg v) ∧
      (out_message.write_value cfg m v).1.max_size = m.max_size ∧
      blob_fits cfg v := by
  obtain ⟨hok, hbuf, hlt, hge⟩ := hinv
  have hne : ¬ m.m_ok = false := by simp [hok]
  have hused : decodeLE (m.m_buffer.take cfg.len_bytes) = h := by
    rw [hbuf, take_encodeLE_append, decodeLE_encodeLE, Nat.mod_eq_of_lt hlt]
  cases v with
  | scalar k t x =>
    have hflen : (field_bytes cfg (value.scalar k t x)).length
        = k + (if cfg.use_tags then 1 else 0) := by
      cases htags : cfg.use_tags <;> simp [field_bytes, encodeLE_length, htags] <;> omega
    by_cases hg : m.max_size < h + ((if cfg.use_tags then 1 else 0) + k)
    · exfalso
      simp [out_message.write_value, out_message.push, hne, hused, hg] at hok2
    · have hle : h + ((if cfg.use_tags then 1 else 0) + k) ≤ m.max_size :=
        Nat.le_of_not_lt hg
      have hlt2 : h + ((if cfg.use_tags then 1 else 0) + k) < 256 ^ cfg.len_bytes := by
        linarith
      have hres : out_message.write_value cfg m (value.scalar k t x)
          = ({ m with m_buffer := encodeLE cfg.len_bytes (h + ((if cfg.use_tags then 1 else 0) + k)) ++ (p ++ field_bytes cfg (value.scalar k t x)) }, none) := by
        simp only [out_message.write_value, out_message.push, if_neg hne, hused,
          if_neg hg]
        simp only [hbuf, field_bytes, List.append_assoc]
        rw [drop_encodeLE_append]
      refine ⟨h + ((if cfg.use_tags then 1 else 0) + k), ⟨?_, ?_, hlt2, ?_⟩, ?_, trivial⟩
      · simp [hres, hok]
      · simp [hres]
      · simp only [List.length_append, hflen]
        linarith
      · simp [hres]
  | vstr s =>
    have hflen : (field_bytes cfg (value.vstr s)).length
        = s.length + 1 + (if cfg.use_tags then 1 else 0) := by
      cases htags : cfg.use_tags <;> simp [field_bytes, htags] <;> omega
    have hdelta : (if cfg.use_tags then 2 else 1)
        = (if cfg.use_tags then 1 else 0) + 1 := by
      cases cfg.use_tags <;> rfl
    by_cases hg : m.max_size < h + s.length + (if cfg.use_tags then 2 else 1)
    · exfalso
      simp [out_message.write_value, out_message.write_str, hne, hused, hg] at hok2
    · have hle : h + s.length + (if cfg.use_tags then 2 else 1) ≤ m.max_size :=
        Nat.le_of_not_lt hg
      have hlt2 : h + (h + s.length + (if cfg.use_tags then 2 else 1))
          < 256 ^ cfg.len_bytes := by linarith
      have hres : out_message.write_value cfg m (value.vstr s)
          = ({ m with m_buffer := encodeLE cfg.len_bytes (h + (h + s.length + (if cfg.use_tags then 2 else 1))) ++ (p ++ field_bytes cfg (value.vstr s)) }, none) := by
        simp only [out_message.write_value, out_message.write_str, if_neg hne, hused,
          if_neg hg]
        simp only [hbuf, field_bytes, List.append_assoc]
        rw [take_encodeLE_append, decodeLE_encodeLE,
          Nat.mod_eq_of_lt hlt, drop_encodeLE_append, Nat.mod_eq_of_lt hlt2]
      refine ⟨h + (h + s.length + (if cfg.use_tags then 2 else 1)),
        ⟨?_, ?_, hlt2, ?_⟩, ?_, trivial⟩
      · simp [hres, hok]
      · simp [hres]
      · simp only [List.length_append, hflen]
        linarith
      · simp [hres]
  | vblob b =>
    have hflen : (field_bytes cfg (value.vblob b)).length
        = cfg.len_bytes + b.length + (if cfg.use_tags then 1 else 0) := by
      cases htags : cfg.use_tags <;> simp [field_bytes, encodeLE_length, htags] <;> omega
    by_cases hg : m.max_size < h + b.length + (if cfg.use_tags then 1 else 0)
    · exfalso
      simp [out_message.write_value, out_message.write_blob, hne, hused, hg] at hok2
    · have hle : h + b.length + (if cfg.use_tags then 1 else 0) ≤ m.max_size :=
        Nat.le_of_not_lt hg
      have hlt2 : h + (h + b.length + (if cfg.use_tags then 1 else 0))
          < 256 ^ cfg.len_bytes := by
        obtain ⟨T, hT⟩ : ∃ T, (if cfg.use_tags then (1 : Nat) else 0) = T := ⟨_, rfl⟩
        rw [hT] at hle ⊢
        omega
      have hres : out_message.write_value cfg m (value.vblob b)
          = ({ m with m_buffer := encodeLE cfg.len_bytes (h + (h + b.length + (if cfg.use_tags then 1 else 0))) ++ (p ++ field_bytes cfg (value.vblob b)) }, none) := by
        simp only [out_message.write_value, out_message.write_blob, if_neg hne, hused,
          if_neg hg]
        simp only [hbuf, field_bytes, List.append_assoc]
        rw [take_encodeLE_append, decodeLE_encodeLE,
          Nat.mod_eq_of_lt hlt, drop_encodeLE_append, Nat.mod_eq_of_lt hlt2]
      refine ⟨h + (h + b.length + (if cfg.use_tags then 1 else 0)),
        ⟨?_, ?_, hlt2, ?_⟩, ?_, ?_⟩
      · simp [hres, hok]
      · simp [hres]
      · simp only [List.length_append, hflen]
        linarith
      · simp [hres]
      · show b.length < 256 ^ cfg.len_bytes
        obtain ⟨T, hT⟩ : ∃ T, (if cfg.use_tags then (1 : Nat) else 0) = T := ⟨_, rfl⟩
        rw [hT] at hle
        omega

theorem write_all_inv (cfg : msg_config) :
    ∀ (vs : List value) (m : out_message) (h : Nat) (p : List Nat),
      2 * m.max_size < 256 ^ cfg.len_bytes →
      (∀ v ∈ vs, validValue v) →
      writer_inv cfg m h p →
      (out_message.write_all cfg m vs).m_ok = true →
      ∃ h2, writer_inv cfg (out_message.write_all cfg m vs) h2
          (p ++ (vs.map (field_bytes cfg)).flatten) ∧
        ∀ v ∈ vs, blob_fits cfg v := by
  intro vs
  induction vs with
  | nil =>
    intro m h p hmax hv hinv hok
    exact ⟨h, by simpa [out_message.write_all] using hinv, by simp⟩
  | cons v vs ih =>
    intro m h p hmax hv hinv hok
    rw [out_message.write_all] at hok ⊢
    have hok1 : (out_message.write_value cfg m v).1.m_ok = true := by
      by_contra hc
      have hf : (out_message.write_value cfg m v).1.m_ok = false := by
        cases hb : (out_message.write_value cfg m v).1.m_ok
        · rfl
        · exact absurd hb hc
      rw [write_all_ok_false cfg vs _ hf] at hok
      cases hok
    obtain ⟨h2, hinv2, hmax2, hfits⟩ :=
      write_value_step cfg m v h p hmax (hv v (by simp)) hinv hok1
    obtain ⟨h3, hinv3, hfits3⟩ :=
      ih (out_message.write_value cfg m v).1 h2 (p ++ field_bytes cfg v)
        (by rw [hmax2]; exact hmax) (fun x hx => hv x (by simp [hx])) hinv2 hok
    refine ⟨h3, ?_, ?_⟩
    · simpa [List.append_assoc] using hinv3
    · intro x hx
      rcases List.mem_cons.mp hx with hx1 | hx1
      · subst hx1
        exact hfits
      · exact hfits3 x hx1

theorem read_str_step (cfg : msg_config) (hf : Nat) (d r s : List Nat)
    (hhf : hf < 256 ^ cfg.len_bytes)
    (hs : ∀ b ∈ s, b ≠ 0)
    (hlen : cfg.len_bytes + d.length + (field_bytes cfg (value.vstr s)).length ≤ hf) :
    in_message.read_str cfg
        ⟨true, encodeLE cfg.len_bytes hf ++ (d ++ (field_bytes cfg (value.vstr s) ++ r)),
          cfg.len_bytes + d.length⟩ []
      = (⟨true, encodeLE cfg.len_bytes hf ++ (d ++ (field_bytes cfg (value.vstr s) ++ r)),
            cfg.len_bytes + d.length + (field_bytes cfg (value.vstr s)).length⟩,
          s, none) := by
  have hsize : decodeLE ((encodeLE cfg.len_bytes hf
      ++ (d ++ (field_bytes cfg (value.vstr s) ++ r))).take cfg.len_bytes) = hf := by
    rw [take_encodeLE_append, decodeLE_encodeLE, Nat.mod_eq_of_lt hhf]
  cases htags : cfg.use_tags with
  | true =>
    have hflen : (field_bytes cfg (value.vstr s)).length = s.length + 2 := by
      simp [field_bytes, htags]
    have hguard : ¬ (hf < cfg.len_bytes + d.length + 2) := by omega
    have hB1 : encodeLE cfg.len_bytes hf ++ (d ++ (field_bytes cfg (value.vstr s) ++ r))
        = (encodeLE cfg.len_bytes hf ++ d) ++ (tagByte .str :: (s ++ 0 :: r)) := by
      simp [field_bytes, htags]
    have htagb : (encodeLE cfg.len_bytes hf
        ++ (d ++ (field_bytes cfg (value.vstr s) ++ r))).getD
        (cfg.len_bytes + d.length) 0 = tagByte .str := by
      rw [hB1]
      exact getD_append_at _ _ _ _ _ (by simp only [List.length_append, encodeLE_length, List.length_cons, List.length_nil] <;> omega)
    have hB2 : encodeLE cfg.len_bytes hf ++ (d ++ (field_bytes cfg (value.vstr s) ++ r))
        = ((encodeLE cfg.len_bytes hf ++ d) ++ [tagByte .str]) ++ (s ++ 0 :: r) := by
      simp [field_bytes, htags]
    have hdrop : (encodeLE cfg.len_bytes hf
        ++ (d ++ (field_bytes cfg (value.vstr s) ++ r))).drop
        (cfg.len_bytes + d.length + 1) = s ++ 0 :: r := by
      rw [hB2]
      exact drop_append_at _ _ _ (by simp only [List.length_append, encodeLE_length, List.length_cons, List.length_nil] <;> omega)
    have hmem : memchr (((encodeLE cfg.len_bytes hf
        ++ (d ++ (field_bytes cfg (value.vstr s) ++ r))).drop
        (cfg.len_bytes + d.length + 1)).take
        (hf - (cfg.len_bytes + d.length + 1))) = some s.length := by
      rw [hdrop]
      exact memchr_take s r _ (by omega) hs
    have harg : ((((encodeLE cfg.len_bytes hf
        ++ (d ++ (field_bytes cfg (value.vstr s) ++ r))).drop
        (cfg.len_bytes + d.length + 1)).take
        (hf - (cfg.len_bytes + d.length + 1))).take s.length) = s := by
      rw [hdrop, List.take_take, Nat.min_eq_left (by omega)]
      exact take_append_at s (0 :: r) s.length rfl
    simp only [in_message.read_str, htags, if_true, true_and]
    rw [if_neg (by simp)]
    rw [hsize, if_neg hguard, htagb]
    rw [if_neg (by simp)]
    rw [hmem]
    simp only [harg, hflen, Prod.mk.injEq, in_message.mk.injEq, and_true, true_and] <;>
      omega
  | false =>
    have hflen : (field_bytes cfg (value.vstr s)).length = s.length + 1 := by
      simp [field_bytes, htags]
    have hguard : ¬ (hf < cfg.len_bytes + d.length + 1) := by omega
    have hB2 : encodeLE cfg.len_bytes hf ++ (d ++ (field_bytes cfg (value.vstr s) ++ r))
        = (encodeLE cfg.len_bytes hf ++ d) ++ (s ++ 0 :: r) := by
      simp [field_bytes, htags]
    have hdrop : (encodeLE cfg.len_bytes hf
        ++ (d ++ (field_bytes cfg (value.vstr s) ++ r))).drop
        (cfg.len_bytes + d.length) = s ++ 0 :: r := by
      rw [hB2]
      exact drop_append_at _ _ _ (by simp only [List.length_append, encodeLE_length, List.length_cons, List.length_nil] <;> omega)
    have hmem : memchr (((encodeLE cfg.len_bytes hf
        ++ (d ++ (field_bytes cfg (value.vstr s) ++ r))).drop
        (cfg.len_bytes + d.length)).take
        (hf - (cfg.len_bytes + d.length))) = some s.length := by
      rw [hdrop]
      exact memchr_take s r _ (by omega) hs
    have harg : ((((encodeLE cfg.len_bytes hf
        ++ (d ++ (field_bytes cfg (value.vstr s) ++ r))).drop
        (cfg.len_bytes + d.length)).take
        (hf - (cfg.len_bytes + d.length))).take s.length) = s := by
      rw [hdrop, List.take_take, Nat.min_eq_left (by omega)]
      exact take_append_at s (0 :: r) s.length rfl
    simp only [in_message.read_str, htags, Bool.false_eq_true, if_false, false_and,
      Nat.add_zero]
    rw [if_neg (by simp)]
    rw [hsize, if_neg hguard]
    rw [hmem]
    simp only [harg, hflen, Prod.mk.injEq, in_message.mk.injEq, and_true, true_and] <;>
      omega

theorem read_blob_step (cfg : msg_config) (hf : Nat) (d r b : List Nat)
    (hhf : hf < 256 ^ cfg.len_bytes)
    (hb : b.length < 256 ^ cfg.len_bytes)
    (hlen : cfg.len_bytes + d.length + (field_bytes cfg (value.vblob b)).length ≤ hf) :
    in_message.read_blob cfg
        ⟨true, encodeLE cfg.len_bytes hf ++ (d ++ (field_bytes cfg (value.vblob b) ++ r)),
          cfg.len_bytes + d.length⟩ []
      = (⟨true, encodeLE cfg.len_bytes hf ++ (d ++ (field_bytes cfg (value.vblob b) ++ r)),
            cfg.len_bytes + d.length + (field_bytes cfg (value.vblob b)).length⟩,
          b, none) := by
  have hsize : decodeLE ((encodeLE cfg.len_bytes hf
      ++ (d ++ (field_bytes cfg (value.vblob b) ++ r))).take cfg.len_bytes) = hf := by
    rw [take_encodeLE_append, decodeLE_encodeLE, Nat.mod_eq_of_lt hhf]
  cases htags : cfg.use_tags with
  | true =>
    have hflen : (field_bytes cfg (value.vblob b)).length
        = cfg.len_bytes + b.length + 1 := by
      simp [field_bytes, htags, encodeLE_length] <;> omega
    have hguard : ¬ (hf < cfg.len_bytes + d.length + (1 + cfg.len_bytes)) := by omega
    have hB1 : encodeLE cfg.len_bytes hf ++ (d ++ (field_bytes cfg (value.vblob b) ++ r))
        = (encodeLE cfg.len_bytes hf ++ d)
          ++ (tagByte .blob :: (encodeLE cfg.len_bytes b.length ++ (b ++ r))) := by
      simp [field_bytes, htags]
    have htagb : (encodeLE cfg.len_bytes hf
        ++ (d ++ (field_bytes cfg (value.vblob b) ++ r))).getD
        (cfg.len_bytes + d.length) 0 = tagByte .blob := by
      rw [hB1]
      exact getD_append_at _ _ _ _ _
        (by simp only [List.length_append, encodeLE_length] <;> omega)
    have hB2 : encodeLE cfg.len_bytes hf ++ (d ++ (field_bytes cfg (value.vblob b) ++ r))
        = ((encodeLE cfg.len_bytes hf ++ d) ++ [tagByte .blob])
          ++ (encodeLE cfg.len_bytes b.length ++ (b ++ r)) := by
      simp [field_bytes, htags]
    have hdrop1 : (encodeLE cfg.len_bytes hf
        ++ (d ++ (field_bytes cfg (value.vblob b) ++ r))).drop
        (cfg.len_bytes + d.length + 1) = encodeLE cfg.len_bytes b.length ++ (b ++ r) := by
      rw [hB2]
      exact drop_append_at _ _ _
        (by simp only [List.length_append, encodeLE_length, List.length_cons,
          List.length_nil] <;> omega)
    have hsub : decodeLE (((encodeLE cfg.len_bytes hf
        ++ (d ++ (field_bytes cfg (value.vblob b) ++ r))).drop
        (cfg.len_bytes + d.length + 1)).take cfg.len_bytes) = b.length := by
      rw [hdrop1, take_encodeLE_append, decodeLE_encodeLE, Nat.mod_eq_of_lt hb]
    have hre : ¬ (hf < cfg.len_bytes + d.length + 1 + cfg.len_bytes + b.length) := by
      omega
    have hB3 : encodeLE cfg.len_bytes hf ++ (d ++ (field_bytes cfg (value.vblob b) ++ r))
        = (((encodeLE cfg.len_bytes hf ++ d) ++ [tagByte .blob])
            ++ encodeLE cfg.len_bytes b.length) ++ (b ++ r) := by
      simp [field_bytes, htags]
    have hdrop2 : (encodeLE cfg.len_bytes hf
        ++ (d ++ (field_bytes cfg (value.vblob b) ++ r))).drop
        (cfg.len_bytes + d.length + 1 + cfg.len_bytes) = b ++ r := by
      rw [hB3]
      exact drop_append_at _ _ _
        (by simp only [List.length_append, encodeLE_length, List.length_cons,
          List.length_nil] <;> omega)
    have harg : ((encodeLE cfg.len_bytes hf
        ++ (d ++ (field_bytes cfg (value.vblob b) ++ r))).drop
        (cfg.len_bytes + d.length + 1 + cfg.len_bytes)).take b.length = b := by
      rw [hdrop2]
      exact take_append_at b r _ rfl
    simp only [in_message.read_blob, htags, if_true, true_and]
    rw [if_neg (by simp)]
    rw [hsize, if_neg hguard, htagb]
    rw [if_neg (by simp)]
    rw [hsub]
    rw [if_neg hre]
    by_cases hb0 : b.length = 0
    · have hbnil : b = [] := List.length_eq_zero.mp hb0
      subst hbnil
      rw [if_pos hb0]
      simp only [hflen, Prod.mk.injEq, in_message.mk.injEq, and_true, true_and] <;>
        omega
    · rw [if_neg hb0, harg]
      simp only [hflen, Prod.mk.injEq, in_message.mk.injEq, and_true, true_and] <;>
        omega
  | false =>
    have hflen : (field_bytes cfg (value.vblob b)).length
        = cfg.len_bytes + b.length := by
      simp [field_bytes, htags, encodeLE_length] <;> omega
    have hguard : ¬ (hf < cfg.len_bytes + d.length + (0 + cfg.len_bytes)) := by omega
    have hB2 : encodeLE cfg.len_bytes hf ++ (d ++ (field_bytes cfg (value.vblob b) ++ r))
        = (encodeLE cfg.len_bytes hf ++ d)
          ++ (encodeLE cfg.len_bytes b.length ++ (b ++ r)) := by
      simp [field_bytes, htags]
    have hdrop1 : (encodeLE cfg.len_bytes hf
        ++ (d ++ (field_bytes cfg (value.vblob b) ++ r))).drop
        (cfg.len_bytes + d.length) = encodeLE cfg.len_bytes b.length ++ (b ++ r) := by
      rw [hB2]
      exact drop_append_at _ _ _
        (by simp only [List.length_append, encodeLE_length] <;> omega)
    have hsub : decodeLE (((encodeLE cfg.len_bytes hf
        ++ (d ++ (field_bytes cfg (value.vblob b) ++ r))).drop
        (cfg.len_bytes + d.length)).take cfg.len_bytes) = b.length := by
      rw [hdrop1, take_encodeLE_append, decodeLE_encodeLE, Nat.mod_eq_of_lt hb]
    have hre : ¬ (hf < cfg.len_bytes + d.length + cfg.len_bytes + b.length) := by
      omega
    have hB3 : encodeLE cfg.len_bytes hf ++ (d ++ (field_bytes cfg (value.vblob b) ++ r))
        = ((encodeLE cfg.len_bytes hf ++ d) ++ encodeLE cfg.len_bytes b.length)
          ++ (b ++ r) := by
      simp [field_bytes, htags]
    have hdrop2 : (encodeLE cfg.len_bytes hf
        ++ (d ++ (field_bytes cfg (value.vblob b) ++ r))).drop
        (cfg.len_bytes + d.length + cfg.len_bytes) = b ++ r := by
      rw [hB3]
      exact drop_append_at _ _ _
        (by simp only [List.length_append, encodeLE_length] <;> omega)
    have harg : ((encodeLE cfg.len_bytes hf
        ++ (d ++ (field_bytes cfg (value.vblob b) ++ r))).drop
        (cfg.len_bytes + d.length + cfg.len_bytes)).take b.length = b := by
      rw [hdrop2]
      exact take_append_at b r _ rfl
    simp only [in_message.read_blob, htags, Bool.false_eq_true, if_false, false_and,
      Nat.add_zero, Nat.zero_add]
    rw [if_neg (by simp)]
    rw [hsize, if_neg (by omega : ¬ (hf < cfg.len_bytes + d.length + cfg.len_bytes))]
    rw [hsub]
    rw [if_neg hre]
    by_cases hb0 : b.length = 0
    · have hbnil : b = [] := List.length_eq_zero.mp hb0
      subst hbnil
      rw [if_pos hb0]
      simp only [hflen, Prod.mk.injEq, in_message.mk.injEq, and_true, true_and] <;>
        omega
    · rw [if_neg hb0, harg]
      simp only [hflen, Prod.mk.injEq, in_message.mk.injEq, and_true, true_and] <;>
        omega

theorem pop_step (cfg : msg_config) (hf : Nat) (d r : List Nat) (k : Nat)
    (t : type_tag) (x : Nat)
    (hhf : hf < 256 ^ cfg.len_bytes) (hx : x < 256 ^ k)
    (hlen : cfg.len_bytes + d.length
      + (field_bytes cfg (value.scalar k t x)).length ≤ hf) :
    in_message.pop cfg
        ⟨true, encodeLE cfg.len_bytes hf
          ++ (d ++ (field_bytes cfg (value.scalar k t x) ++ r)),
          cfg.len_bytes + d.length⟩ k t
      = (⟨true, encodeLE cfg.len_bytes hf
            ++ (d ++ (field_bytes cfg (value.scalar k t x) ++ r)),
            cfg.len_bytes + d.length + (field_bytes cfg (value.scalar k t x)).length⟩,
          x, none) := by
  have hsize : decodeLE ((encodeLE cfg.len_bytes hf
      ++ (d ++ (field_bytes cfg (value.scalar k t x) ++ r))).take cfg.len_bytes) = hf := by
    rw [take_encodeLE_append, decodeLE_encodeLE, Nat.mod_eq_of_lt hhf]
  cases htags : cfg.use_tags with
  | true =>
    have hflen : (field_bytes cfg (value.scalar k t x)).length = k + 1 := by
      simp [field_bytes, htags, encodeLE_length] <;> omega
    have hguard : ¬ (hf < cfg.len_bytes + d.length + (1 + k)) := by omega
    have hB1 : encodeLE cfg.len_bytes hf
          ++ (d ++ (field_bytes cfg (value.scalar k t x) ++ r))
        = (encodeLE cfg.len_bytes hf ++ d)
          ++ (tagByte t :: (encodeLE k x ++ r)) := by
      simp [field_bytes, htags]
    have htagb : (encodeLE cfg.len_bytes hf
        ++ (d ++ (field_bytes cfg (value.scalar k t x) ++ r))).getD
        (cfg.len_bytes + d.length) 0 = tagByte t := by
      rw [hB1]
      exact getD_append_at _ _ _ _ _
        (by simp only [List.length_append, encodeLE_length] <;> omega)
    have hB2 : encodeLE cfg.len_bytes hf
          ++ (d ++ (field_bytes cfg (value.scalar k t x) ++ r))
        = ((encodeLE cfg.len_bytes hf ++ d) ++ [tagByte t]) ++ (encodeLE k x ++ r) := by
      simp [field_bytes, htags]
    have hval : decodeLE (((encodeLE cfg.len_bytes hf
        ++ (d ++ (field_bytes cfg (value.scalar k t x) ++ r))).drop
        (cfg.len_bytes + d.length + 1)).take k) = x := by
      rw [hB2, drop_append_at _ _ _
        (by simp only [List.length_append, encodeLE_length, List.length_cons,
          List.length_nil] <;> omega)]
      rw [take_encodeLE_append, decodeLE_encodeLE, Nat.mod_eq_of_lt hx]
    simp only [in_message.pop, htags, if_true, true_and]
    rw [if_neg (by simp)]
    rw [hsize, if_neg hguard, htagb]
    rw [if_neg (by simp)]
    rw [hval]
    simp only [hflen, Prod.mk.injEq, in_message.mk.injEq, and_true, true_and] <;> omega
  | false =>
    have hflen : (field_bytes cfg (value.scalar k t x)).length = k := by
      simp [field_bytes, htags, encodeLE_length] <;> omega
    have hguard : ¬ (hf < cfg.len_bytes + d.length + (0 + k)) := by omega
    have hB2 : encodeLE cfg.len_bytes hf
          ++ (d ++ (field_bytes cfg (value.scalar k t x) ++ r))
        = (encodeLE cfg.len_bytes hf ++ d) ++ (encodeLE k x ++ r) := by
      simp [field_bytes, htags]
    have hval : decodeLE (((encodeLE cfg.len_bytes hf
        ++ (d ++ (field_bytes cfg (value.scalar k t x) ++ r))).drop
        (cfg.len_bytes + d.length)).take k) = x := by
      rw [hB2, drop_append_at _ _ _
        (by simp only [List.length_append, encodeLE_length] <;> omega)]
      rw [take_encodeLE_append, decodeLE_encodeLE, Nat.mod_eq_of_lt hx]
    simp only [in_message.pop, htags, Bool.false_eq_true, if_false, false_and,
      Nat.add_zero, Nat.zero_add]
    rw [if_neg (by simp)]
    rw [hsize, if_neg (by omega : ¬ (hf < cfg.len_bytes + d.length + k))]
    rw [hval]
    simp only [hflen, Prod.mk.injEq, in_message.mk.injEq, and_true, true_and] <;> omega

theorem read_value_step (cfg : msg_config) (hf : Nat) (d r : List Nat) (v : value)
    (hhf : hf < 256 ^ cfg.len_bytes)
    (hv : validValue v) (hfits : blob_fits cfg v)
    (hlen : cfg.len_bytes + d.length + (field_bytes cfg v).length ≤ hf) :
    in_message.read_value cfg
        ⟨true, encodeLE cfg.len_bytes hf ++ (d ++ (field_bytes cfg v ++ r)),
          cfg.len_bytes + d.length⟩ v
      = (⟨true, encodeLE cfg.len_bytes hf ++ (d ++ (field_bytes cfg v ++ r)),
            cfg.len_bytes + d.length + (field_bytes cfg v).length⟩, v, none) := by
  cases v with
  | scalar k t x =>
    have hstep := pop_step cfg hf d r k t x hhf hv hlen
    simp only [in_message.read_value, hstep]
  | vstr s =>
    have hstep := read_str_step cfg hf d r s hhf hv hlen
    simp only [in_message.read_value, hstep]
  | vblob b =>
    have hstep := read_blob_step cfg hf d r b hhf hfits hlen
    simp only [in_message.read_value, hstep]

theorem read_all_correct (cfg : msg_config) (hf : Nat)
    (hhf : hf < 256 ^ cfg.len_bytes) :
    ∀ (vs : List value) (d r : List Nat),
      (∀ v ∈ vs, validValue v ∧ blob_fits cfg v) →
      cfg.len_bytes + d.length + ((vs.map (field_bytes cfg)).flatten).length
        + r.length ≤ hf →
      in_message.read_all cfg
          ⟨true, encodeLE cfg.len_bytes hf
            ++ (d ++ (((vs.map (field_bytes cfg)).flatten) ++ r)),
            cfg.len_bytes + d.length⟩ vs
        = (⟨true, encodeLE cfg.len_bytes hf
              ++ (d ++ (((vs.map (field_bytes cfg)).flatten) ++ r)),
              cfg.len_bytes + d.length
                + ((vs.map (field_bytes cfg)).flatten).length⟩, vs) := by
  intro vs
  induction vs with
  | nil =>
    intro d r hv hlen
    simp [in_message.read_all]
  | cons v vs ih =>
    intro d r hv hlen
    have hva := (hv v (by simp)).1
    have hvb := (hv v (by simp)).2
    have hflat : (((v :: vs).map (field_bytes cfg)).flatten)
        = field_bytes cfg v ++ ((vs.map (field_bytes cfg)).flatten) := by
      simp
    have hlen2 : cfg.len_bytes + d.length + (field_bytes cfg v).length ≤ hf := by
      rw [hflat] at hlen
      simp only [List.length_append] at hlen
      omega
    have hstep := read_value_step cfg hf d
      (((vs.map (field_bytes cfg)).flatten) ++ r) v hhf hva hvb hlen2
    have hbufeq : encodeLE cfg.len_bytes hf
          ++ (d ++ ((((v :: vs).map (field_bytes cfg)).flatten) ++ r))
        = encodeLE cfg.len_bytes hf
          ++ (d ++ (field_bytes cfg v ++ (((vs.map (field_bytes cfg)).flatten) ++ r))) := by
      rw [hflat]
      simp [List.append_assoc]
    rw [in_message.read_all, hbufeq, hstep]
    have hstate : (⟨true, encodeLE cfg.len_bytes hf
          ++ (d ++ (field_bytes cfg v ++ (((vs.map (field_bytes cfg)).flatten) ++ r))),
          cfg.len_bytes + d.length + (field_bytes cfg v).length⟩ : in_message)
        = ⟨true, encodeLE cfg.len_bytes hf
            ++ ((d ++ field_bytes cfg v) ++ (((vs.map (field_bytes cfg)).flatten) ++ r)),
            cfg.len_bytes + (d ++ field_bytes cfg v).length⟩ := by
      simp [List.append_assoc, List.length_append] <;> omega
    have hih := ih (d ++ field_bytes cfg v) r
      (fun x hx => hv x (by simp [hx]))
      (by
        rw [hflat] at hlen
        simp only [List.length_append] at hlen ⊢
        omega)
    rw [hstate, hih]
    simp only [Prod.mk.injEq, in_message.mk.injEq, hflat, List.length_append,
      List.append_assoc, and_true, true_and]
    omega

/-- C2, amended round-trip: for every tag mode and length-field width, every
capacity below half the length-field range (so that the `+=`-updated length
field cannot wrap — see the counterexample for why the bound is needed), and
every sequence of supported scalars,
strings without embedded NUL bytes, and blobs (including zero-length) whose
appends all succeed within capacity, a reader over the resulting buffer
extracts exactly the written values in append order, its fail flag remaining
true throughout, with the cursor ending at the buffer's end. -/
theorem c2_round_trip (cfg : msg_config) (max : Nat) (vs : List value)
    (hw : 0 < cfg.len_bytes) (hmax : 2 * max < 256 ^ cfg.len_bytes)
    (hvs : ∀ v ∈ vs, validValue v)
    (hok : (out_message.write_all cfg (out_message.init cfg max) vs).m_ok = true) :
    in_message.read_all cfg
        (in_message.init cfg
          (out_message.write_all cfg (out_message.init cfg max) vs).m_buffer) vs
      = (⟨true, (out_message.write_all cfg (out_message.init cfg max) vs).m_buffer,
          (out_message.write_all cfg (out_message.init cfg max) vs).m_buffer.length⟩,
        vs) := by
  have hinv0 : writer_inv cfg (out_message.init cfg max) cfg.len_bytes [] := by
    refine ⟨rfl, by simp [out_message.init], ?_, by simp⟩
    exact Nat.lt_pow_self (by norm_num) cfg.len_bytes
  obtain ⟨hfin, hinvf, hfits⟩ := write_all_inv cfg vs (out_message.init cfg max)
    cfg.len_bytes [] (by simpa [out_message.init] using hmax) hvs hinv0 hok
  obtain ⟨hokf, hbuff, hltf, hgef⟩ := hinvf
  have hbuff2 : (out_message.write_all cfg (out_message.init cfg max) vs).m_buffer
      = encodeLE cfg.len_bytes hfin ++ ((vs.map (field_bytes cfg)).flatten) := by
    simpa using hbuff
  have hread := read_all_correct cfg hfin hltf vs [] []
    (fun v hv => ⟨hvs v hv, hfits v hv⟩)
    (by
      simp only [List.nil_append, List.length_append, List.length_nil] at hgef ⊢
      omega)
  have hstate : in_message.init cfg
        (out_message.write_all cfg (out_message.init cfg max) vs).m_buffer
      = ⟨true, encodeLE cfg.len_bytes hfin
          ++ ([] ++ (((vs.map (field_bytes cfg)).flatten) ++ [])),
          cfg.len_bytes + ([] : List Nat).length⟩ := by
    simp [in_message.init, hbuff2]
  rw [hstate, hread]
  simp only [hbuff2, Prod.mk.injEq, in_message.mk.injEq, List.nil_append,
    List.append_nil, List.length_append, List.length_nil, encodeLE_length,
    and_true, true_and] <;> omega

/-- C2 witness: the spec's example scenario under the tagged two-byte-length
configuration with capacity 64 — appending `u32 7`, the string "hi" and the
blob [0xDE,0xAD] succeeds, and the reader extracts exactly those three values
in order with its fail flag still true and the cursor at the buffer's end
(byte 16). -/
theorem c2_round_trip_witness :
    in_message.read_all ⟨true, 2⟩
        (in_message.init ⟨true, 2⟩
          (out_message.write_all ⟨true, 2⟩ (out_message.init ⟨true, 2⟩ 64)
            [value.scalar 4 .u32 7, value.vstr [104, 105],
              value.vblob [222, 173]]).m_buffer)
        [value.scalar 4 .u32 7, value.vstr [104, 105], value.vblob [222, 173]]
      = (⟨true,
          (out_message.write_all ⟨true, 2⟩ (out_message.init ⟨true, 2⟩ 64)
            [value.scalar 4 .u32 7, value.vstr [104, 105],
              value.vblob [222, 173]]).m_buffer, 16⟩,
        [value.scalar 4 .u32 7, value.vstr [104, 105], value.vblob [222, 173]]) := by
  have h := c2_round_trip ⟨true, 2⟩ 64
    [value.scalar 4 .u32 7, value.vstr [104, 105], value.vblob [222, 173]]
    (by decide) (by decide)
    (by
      intro v hv
      fin_cases hv
      · show (7 : Nat) < 256 ^ 4
        norm_num
      · show ∀ b ∈ [104, 105], b ≠ 0
        decide
      · trivial)
    (by decide)
  exact h

set_option maxRecDepth 40000 in
/-- C2 counterexample: the claim as stated — whenever every append succeeds
within capacity, the reader extracts the written values with its fail flag
still true — is false without a bound on the capacity, because the writer
updates the length field with `+=` and the field wraps. Untagged mode, 1-byte
length field, capacity 200 (within the field's 0..255 range): appending a
150-byte string takes the header from 1 to (1 + 152) mod 256 = 153, and a
40-byte string then takes it to (153 + 194) mod 256 = 91, both appends
succeeding; the reader of the resulting 193-byte buffer trusts the declared
length 91, finds no terminator inside that window, and latches failed. -/
theorem c2_round_trip_counterexample :
    (∀ v ∈ [value.vstr (List.replicate 150 97), value.vstr (List.replicate 40 97)],
      validValue v) ∧
    (out_message.write_all ⟨false, 1⟩ (out_message.init ⟨false, 1⟩ 200)
        [value.vstr (List.replicate 150 97), value.vstr (List.replicate 40 97)]).m_ok
      = true ∧
    (in_message.read_all ⟨false, 1⟩
        (in_message.init ⟨false, 1⟩
          (out_message.write_all ⟨false, 1⟩ (out_message.init ⟨false, 1⟩ 200)
            [value.vstr (List.replicate 150 97),
              value.vstr (List.replicate 40 97)]).m_buffer)
        [value.vstr (List.replicate 150 97), value.vstr (List.replicate 40 97)]).1.m_ok
      = false := by
  refine ⟨?_, rfl, rfl⟩
  intro v hv
  fin_cases hv
  · show ∀ b ∈ List.replicate 150 97, b ≠ 0
    decide
  · show ∀ b ∈ List.replicate 40 97, b ≠ 0
    decide

/-- Declared length of the wrapped message: the length field read from the
front of the reader's buffer, as every reader operation does. -/
def in_message.size (cfg : msg_config) (m : in_message) : Nat :=
  decodeLE (m.m_buffer.take cfg.len_bytes)

theorem memchr_lt_length : ∀ (l : List Nat) (i : Nat), memchr l = some i → i < l.length := by
  intro l
  induction l with
  | nil => intro i h; cases h
  | cons b bs ih =>
    intro i h
    rw [memchr] at h
    by_cases hb : b = 0
    · rw [if_pos hb] at h
      cases h
      simp
    · rw [if_neg hb] at h
      rcases hmem : memchr bs with _ | j
      · rw [hmem] at h
        cases h
      · rw [hmem] at h
        simp at h
        have := ih j hmem
        simp only [List.length_cons]
        omega

theorem read_str_offset_facts (cfg : msg_config) (m : in_message) (arg : List Nat) :
    m.m_offset ≤ (in_message.read_str cfg m arg).1.m_offset ∧
    (m.m_offset ≤ decodeLE (m.m_buffer.take cfg.len_bytes) →
      (in_message.read_str cfg m arg).1.m_offset
        ≤ decodeLE (m.m_buffer.take cfg.len_bytes)) := by
  cases hok : m.m_ok with
  | false => simp [in_message.read_str, hok]
  | true =>
    cases htags : cfg.use_tags with
    | true =>
      simp only [in_message.read_str, htags, if_true, true_and]
      rw [if_neg (by simp [hok])]
      by_cases hg : decodeLE (m.m_buffer.take cfg.len_bytes) < m.m_offset + 2
      · rw [if_pos hg]
        refine ⟨?_, fun h => ?_⟩ <;> simp <;> omega
      · rw [if_neg hg]
        by_cases ht : m.m_buffer.getD m.m_offset 0 = tagByte type_tag.str
        · rw [List.getD_eq_getElem?_getD] at ht
          rw [if_neg (by simp [ht])]
          split
          · refine ⟨?_, fun h => ?_⟩ <;> simp <;> omega
          · next i hmem =>
              have hi := memchr_lt_length _ _ hmem
              rw [List.length_take] at hi
              have hi2 := lt_of_lt_of_le hi (min_le_left _ _)
              refine ⟨?_, fun h => ?_⟩ <;> simp <;> omega
        · rw [if_pos (by rw [List.getD_eq_getElem?_getD] at ht; simpa using ht)]
          refine ⟨?_, fun h => ?_⟩ <;> simp <;> omega
    | false =>
      simp only [in_message.read_str, htags, Bool.false_eq_true, if_false, false_and,
        Nat.add_zero]
      rw [if_neg (by simp [hok])]
      by_cases hg : decodeLE (m.m_buffer.take cfg.len_bytes) < m.m_offset + 1
      · rw [if_pos hg]
        refine ⟨?_, fun h => ?_⟩ <;> simp <;> omega
      · rw [if_neg hg]
        split
        · refine ⟨?_, fun h => ?_⟩ <;> simp <;> omega
        · next i hmem =>
            have hi := memchr_lt_length _ _ hmem
            rw [List.length_take] at hi
            have hi2 := lt_of_lt_of_le hi (min_le_left _ _)
            refine ⟨?_, fun h => ?_⟩ <;> simp <;> omega

theorem read_blob_offset_facts (cfg : msg_config) (m : in_message) (arg : List Nat) :
    m.m_offset ≤ (in_message.read_blob cfg m arg).1.m_offset ∧
    (m.m_offset ≤ decodeLE (m.m_buffer.take cfg.len_bytes) →
      (in_message.read_blob cfg m arg).1.m_offset
        ≤ decodeLE (m.m_buffer.take cfg.len_bytes)) := by
  cases hok : m.m_ok with
  | false => simp [in_message.read_blob, hok]
  | true =>
    cases htags : cfg.use_tags with
    | true =>
      simp only [in_message.read_blob, htags, if_true, true_and]
      rw [if_neg (by simp [hok])]
      by_cases hg : decodeLE (m.m_buffer.take cfg.len_bytes)
          < m.m_offset + (1 + cfg.len_bytes)
      · rw [if_pos hg]
        refine ⟨?_, fun h => ?_⟩ <;> simp <;> omega
      · rw [if_neg hg]
        by_cases ht : m.m_buffer.getD m.m_offset 0 = tagByte type_tag.blob
        · rw [List.getD_eq_getElem?_getD] at ht
          rw [if_neg (by simp [ht])]
          by_cases hre : decodeLE (m.m_buffer.take cfg.len_bytes)
              < m.m_offset + 1 + cfg.len_bytes
                + decodeLE ((m.m_buffer.drop (m.m_offset + 1)).take cfg.len_bytes)
          · rw [if_pos hre]
            refine ⟨?_, fun h => ?_⟩ <;> simp <;> omega
          · rw [if_neg hre]
            by_cases hb0 : decodeLE ((m.m_buffer.drop (m.m_offset + 1)).take
                cfg.len_bytes) = 0
            · rw [if_pos hb0]
              refine ⟨?_, fun h => ?_⟩ <;> simp <;> omega
            · rw [if_neg hb0]
              refine ⟨?_, fun h => ?_⟩ <;> simp <;> omega
        · rw [if_pos (by rw [List.getD_eq_getElem?_getD] at ht; simpa using ht)]
          refine ⟨?_, fun h => ?_⟩ <;> simp <;> omega
    | false =>
      simp only [in_message.read_blob, htags, Bool.false_eq_true, if_false, false_and,
        Nat.add_zero, Nat.zero_add]
      rw [if_neg (by simp [hok])]
      by_cases hg : decodeLE (m.m_buffer.take cfg.len_bytes)
          < m.m_offset + cfg.len_bytes
      · rw [if_pos hg]
        refine ⟨?_, fun h => ?_⟩ <;> simp <;> omega
      · rw [if_neg hg]
        by_cases hre : decodeLE (m.m_buffer.take cfg.len_bytes)
            < m.m_offset + cfg.len_bytes
              + decodeLE ((m.m_buffer.drop m.m_offset).take cfg.len_bytes)
        · rw [if_pos hre]
          refine ⟨?_, fun h => ?_⟩ <;> simp <;> omega
        · rw [if_neg hre]
          by_cases hb0 : decodeLE ((m.m_buffer.drop m.m_offset).take cfg.len_bytes) = 0
          · rw [if_pos hb0]
            refine ⟨?_, fun h => ?_⟩ <;> simp <;> omega
          · rw [if_neg hb0]
            refine ⟨?_, fun h => ?_⟩ <;> simp <;> omega

theorem pop_offset_facts (cfg : msg_config) (m : in_message) (k : Nat) (t : type_tag) :
    m.m_offset ≤ (in_message.pop cfg m k t).1.m_offset ∧
    (m.m_offset ≤ decodeLE (m.m_buffer.take cfg.len_bytes) →
      (in_message.pop cfg m k t).1.m_offset
        ≤ decodeLE (m.m_buffer.take cfg.len_bytes)) := by
  cases hok : m.m_ok with
  | false => simp [in_message.pop, hok]
  | true =>
    cases htags : cfg.use_tags with
    | true =>
      simp only [in_message.pop, htags, if_true, true_and]
      rw [if_neg (by simp [hok])]
      by_cases hg : decodeLE (m.m_buffer.take cfg.len_bytes) < m.m_offset + (1 + k)
      · rw [if_pos hg]
        refine ⟨?_, fun h => ?_⟩ <;> simp <;> omega
      · rw [if_neg hg]
        by_cases ht : m.m_buffer.getD m.m_offset 0 = tagByte t
        · rw [List.getD_eq_getElem?_getD] at ht
          rw [if_neg (by simp [ht])]
          refine ⟨?_, fun h => ?_⟩ <;> simp <;> omega
        · rw [if_pos (by rw [List.getD_eq_getElem?_getD] at ht; simpa using ht)]
          refine ⟨?_, fun h => ?_⟩ <;> simp <;> omega
    | false =>
      simp only [in_message.pop, htags, Bool.false_eq_true, if_false, false_and,
        Nat.add_zero, Nat.zero_add]
      rw [if_neg (by simp [hok])]
      by_cases hg : decodeLE (m.m_buffer.take cfg.len_bytes) < m.m_offset + k
      · rw [if_pos hg]
        refine ⟨?_, fun h => ?_⟩ <;> simp <;> omega
      · rw [if_neg hg]
        refine ⟨?_, fun h => ?_⟩ <;> simp <;> omega

/-- Reader over only the declared bytes: the wrapped buffer truncated at the
declared length (never below the length field itself) with arbitrary junk
appended in place of the discarded bytes. -/
def truncated_to_size (cfg : msg_config) (m : in_message) (junk : List Nat) :
    in_message :=
  { m with m_buffer :=
      m.m_buffer.take (max cfg.len_bytes (in_message.size cfg m)) ++ junk }

theorem take_agree (l junk : List Nat) (K n : Nat) (hn : n ≤ K) (hKl : K ≤ l.length) :
    (l.take K ++ junk).take n = l.take n := by
  rw [List.take_append_of_le_length (by simp [List.length_take]; omega), List.take_take]
  congr 1
  omega

theorem getD_agree (l junk : List Nat) (K i : Nat) (hi : i < K) (hKl : K ≤ l.length) :
    (l.take K ++ junk).getD i 0 = l.getD i 0 := by
  rw [List.getD_append _ _ _ _ (by simp [List.length_take]; omega)]
  rw [List.getD_eq_getElem?_getD, List.getD_eq_getElem?_getD, List.getElem?_take,
    if_pos hi]

theorem window_agree (l junk : List Nat) (K o n : Nat) (hon : o + n ≤ K)
    (hKl : K ≤ l.length) :
    ((l.take K ++ junk).drop o).take n = (l.drop o).take n := by
  rw [List.drop_append_of_le_length (by simp [List.length_take]; omega)]
  rw [List.take_append_of_le_length
    (by simp [List.length_take, List.length_drop]; omega)]
  rw [List.drop_take, List.take_take]
  congr 1
  omega

theorem read_str_agree (cfg : msg_config) (m : in_message) (arg junk : List Nat)
    (h1 : cfg.len_bytes ≤ m.m_buffer.length)
    (h2 : in_message.size cfg m ≤ m.m_buffer.length) :
    ((in_message.read_str cfg (truncated_to_size cfg m junk) arg).1.m_ok,
      (in_message.read_str cfg (truncated_to_size cfg m junk) arg).1.m_offset,
      (in_message.read_str cfg (truncated_to_size cfg m junk) arg).2)
    = ((in_message.read_str cfg m arg).1.m_ok,
      (in_message.read_str cfg m arg).1.m_offset,
      (in_message.read_str cfg m arg).2) := by
  have hK : max cfg.len_bytes (in_message.size cfg m) ≤ m.m_buffer.length :=
    max_le h1 h2
  have hSK : in_message.size cfg m ≤ max cfg.len_bytes (in_message.size cfg m) :=
    le_max_right _ _
  have hsize2 : decodeLE ((m.m_buffer.take
        (max cfg.len_bytes (in_message.size cfg m)) ++ junk).take cfg.len_bytes)
      = decodeLE (m.m_buffer.take cfg.len_bytes) := by
    rw [take_agree _ _ _ _ (le_max_left _ _) hK]
  cases hok : m.m_ok with
  | false => simp [in_message.read_str, truncated_to_size, hok]
  | true =>
    cases htags : cfg.use_tags with
    | true =>
      simp only [in_message.read_str, truncated_to_size, htags, if_true, true_and]
      simp only [if_neg (show ¬ (m.m_ok = false) by simp [hok]), hsize2]
      by_cases hg : decodeLE (m.m_buffer.take cfg.len_bytes) < m.m_offset + 2
      · simp only [if_pos hg]
      · simp only [if_neg hg]
        have ho : m.m_offset + 2 ≤ in_message.size cfg m := Nat.le_of_not_lt hg
        have htagbeq : (m.m_buffer.take
              (max cfg.len_bytes (in_message.size cfg m)) ++ junk).getD m.m_offset 0
            = m.m_buffer.getD m.m_offset 0 :=
          getD_agree _ _ _ _ (by omega) hK
        simp only [htagbeq]
        by_cases ht : m.m_buffer.getD m.m_offset 0 = tagByte type_tag.str
        · simp only [if_neg (not_not_intro ht)]
          have hwin : ((m.m_buffer.take
                (max cfg.len_bytes (in_message.size cfg m)) ++ junk).drop
                (m.m_offset + 1)).take
                (decodeLE (m.m_buffer.take cfg.len_bytes) - (m.m_offset + 1))
              = (m.m_buffer.drop (m.m_offset + 1)).take
                (decodeLE (m.m_buffer.take cfg.len_bytes) - (m.m_offset + 1)) :=
            window_agree _ _ _ _ _ (by
              show m.m_offset + 1 + (in_message.size cfg m - (m.m_offset + 1)) ≤ _
              omega) hK
          simp only [hwin]
          rcases hmem : memchr ((m.m_buffer.drop (m.m_offset + 1)).take
              (decodeLE (m.m_buffer.take cfg.len_bytes) - (m.m_offset + 1))) with _ | i <;>
            simp only [hmem]
        · simp only [if_pos ht]
    | false =>
      simp only [in_message.read_str, truncated_to_size, htags, Bool.false_eq_true,
        if_false, false_and, Nat.add_zero]
      simp only [if_neg (show ¬ (m.m_ok = false) by simp [hok]), hsize2]
      by_cases hg : decodeLE (m.m_buffer.take cfg.len_bytes) < m.m_offset + 1
      · simp only [if_pos hg]
      · simp only [if_neg hg]
        have ho : m.m_offset + 1 ≤ in_message.size cfg m := Nat.le_of_not_lt hg
        have hwin : ((m.m_buffer.take
              (max cfg.len_bytes (in_message.size cfg m)) ++ junk).drop
              m.m_offset).take
              (decodeLE (m.m_buffer.take cfg.len_bytes) - m.m_offset)
            = (m.m_buffer.drop m.m_offset).take
              (decodeLE (m.m_buffer.take cfg.len_bytes) - m.m_offset) :=
          window_agree _ _ _ _ _ (by
            show m.m_offset + (in_message.size cfg m - m.m_offset) ≤ _
            omega) hK
        simp only [hwin]
        rcases hmem : memchr ((m.m_buffer.drop m.m_offset).take
            (decodeLE (m.m_buffer.take cfg.len_bytes) - m.m_offset)) with _ | i <;>
          simp only [hmem]

theorem read_blob_agree (cfg : msg_config) (m : in_message) (arg junk : List Nat)
    (h1 : cfg.len_bytes ≤ m.m_buffer.length)
    (h2 : in_message.size cfg m ≤ m.m_buffer.length) :
    ((in_message.read_blob cfg (truncated_to_size cfg m junk) arg).1.m_ok,
      (in_message.read_blob cfg (truncated_to_size cfg m junk) arg).1.m_offset,
      (in_message.read_blob cfg (truncated_to_size cfg m junk) arg).2)
    = ((in_message.read_blob cfg m arg).1.m_ok,
      (in_message.read_blob cfg m arg).1.m_offset,
      (in_message.read_blob cfg m arg).2) := by
  have hK : max cfg.len_bytes (in_message.size cfg m) ≤ m.m_buffer.length :=
    max_le h1 h2
  have hSK : in_message.size cfg m ≤ max cfg.len_bytes (in_message.size cfg m) :=
    le_max_right _ _
  have hSdef : in_message.size cfg m = decodeLE (m.m_buffer.take cfg.len_bytes) := rfl
  have hsize2 : decodeLE ((m.m_buffer.take
        (max cfg.len_bytes (in_message.size cfg m)) ++ junk).take cfg.len_bytes)
      = decodeLE (m.m_buffer.take cfg.len_bytes) := by
    rw [take_agree _ _ _ _ (le_max_left _ _) hK]
  cases hok : m.m_ok with
  | false => simp [in_message.read_blob, truncated_to_size, hok]
  | true =>
    cases htags : cfg.use_tags with
    | true =>
      simp only [in_message.read_blob, truncated_to_size, htags, if_true, true_and]
      simp only [if_neg (show ¬ (m.m_ok = false) by simp [hok]), hsize2]
      by_cases hg : decodeLE (m.m_buffer.take cfg.len_bytes)
          < m.m_offset + (1 + cfg.len_bytes)
      · simp only [if_pos hg]
      · simp only [if_neg hg]
        have ho : m.m_offset + (1 + cfg.len_bytes) ≤ in_message.size cfg m :=
          Nat.le_of_not_lt hg
        have htagbeq : (m.m_buffer.take
              (max cfg.len_bytes (in_message.size cfg m)) ++ junk).getD m.m_offset 0
            = m.m_buffer.getD m.m_offset 0 :=
          getD_agree _ _ _ _ (by omega) hK
        simp only [htagbeq]
        by_cases ht : m.m_buffer.getD m.m_offset 0 = tagByte type_tag.blob
        · simp only [if_neg (not_not_intro ht)]
          have hsub : ((m.m_buffer.take
                (max cfg.len_bytes (in_message.size cfg m)) ++ junk).drop
                (m.m_offset + 1)).take cfg.len_bytes
              = (m.m_buffer.drop (m.m_offset + 1)).take cfg.len_bytes :=
            window_agree _ _ _ _ _ (by omega) hK
          simp only [hsub]
          by_cases hre : decodeLE (m.m_buffer.take cfg.len_bytes)
              < m.m_offset + 1 + cfg.len_bytes
                + decodeLE ((m.m_buffer.drop (m.m_offset + 1)).take cfg.len_bytes)
          · simp only [if_pos hre]
          · simp only [if_neg hre]
            have hre2 := Nat.le_of_not_lt hre
            by_cases hb0 : decodeLE ((m.m_buffer.drop (m.m_offset + 1)).take
                cfg.len_bytes) = 0
            · simp only [if_pos hb0]
            · simp only [if_neg hb0]
              have hcopy : ((m.m_buffer.take
                    (max cfg.len_bytes (in_message.size cfg m)) ++ junk).drop
                    (m.m_offset + 1 + cfg.len_bytes)).take
                    (decodeLE ((m.m_buffer.drop (m.m_offset + 1)).take cfg.len_bytes))
                  = (m.m_buffer.drop (m.m_offset + 1 + cfg.len_bytes)).take
                    (decodeLE ((m.m_buffer.drop (m.m_offset + 1)).take cfg.len_bytes)) :=
                window_agree _ _ _ _ _ (by omega) hK
              simp only [hcopy]
        · simp only [if_pos ht]
    | false =>
      simp only [in_message.read_blob, truncated_to_size, htags, Bool.false_eq_true,
        if_false, false_and, Nat.add_zero, Nat.zero_add]
      simp only [if_neg (show ¬ (m.m_ok = false) by simp [hok]), hsize2]
      by_cases hg : decodeLE (m.m_buffer.take cfg.len_bytes)
          < m.m_offset + cfg.len_bytes
      · simp only [if_pos hg]
      · simp only [if_neg hg]
        have ho : m.m_offset + cfg.len_bytes ≤ in_message.size cfg m :=
          Nat.le_of_not_lt hg
        have hsub : ((m.m_buffer.take
              (max cfg.len_bytes (in_message.size cfg m)) ++ junk).drop
              m.m_offset).take cfg.len_bytes
            = (m.m_buffer.drop m.m_offset).take cfg.len_bytes :=
          window_agree _ _ _ _ _ (by omega) hK
        simp only [hsub]
        by_cases hre : decodeLE (m.m_buffer.take cfg.len_bytes)
            < m.m_offset + cfg.len_bytes
              + decodeLE ((m.m_buffer.drop m.m_offset).take cfg.len_bytes)
        · simp only [if_pos hre]
        · simp only [if_neg hre]
          have hre2 := Nat.le_of_not_lt hre
          by_cases hb0 : decodeLE ((m.m_buffer.drop m.m_offset).take cfg.len_bytes) = 0
          · simp only [if_pos hb0]
          · simp only [if_neg hb0]
            have hcopy : ((m.m_buffer.take
                  (max cfg.len_bytes (in_message.size cfg m)) ++ junk).drop
                  (m.m_offset + cfg.len_bytes)).take
                  (decodeLE ((m.m_buffer.drop m.m_offset).take cfg.len_bytes))
                = (m.m_buffer.drop (m.m_offset + cfg.len_bytes)).take
                  (decodeLE ((m.m_buffer.drop m.m_offset).take cfg.len_bytes)) :=
              window_agree _ _ _ _ _ (by omega) hK
            simp only [hcopy]

theorem pop_agree (cfg : msg_config) (m : in_message) (junk : List Nat)
    (k : Nat) (t : type_tag)
    (h1 : cfg.len_bytes ≤ m.m_buffer.length)
    (h2 : in_message.size cfg m ≤ m.m_buffer.length) :
    ((in_message.pop cfg (truncated_to_size cfg m junk) k t).1.m_ok,
      (in_message.pop cfg (truncated_to_size cfg m junk) k t).1.m_offset,
      (in_message.pop cfg (truncated_to_size cfg m junk) k t).2)
    = ((in_message.pop cfg m k t).1.m_ok,
      (in_message.pop cfg m k t).1.m_offset,
      (in_message.pop cfg m k t).2) := by
  have hK : max cfg.len_bytes (in_message.size cfg m) ≤ m.m_buffer.length :=
    max_le h1 h2
  have hSK : in_message.size cfg m ≤ max cfg.len_bytes (in_message.size cfg m) :=
    le_max_right _ _
  have hSdef : in_message.size cfg m = decodeLE (m.m_buffer.take cfg.len_bytes) := rfl
  have hsize2 : decodeLE ((m.m_buffer.take
        (max cfg.len_bytes (in_message.size cfg m)) ++ junk).take cfg.len_bytes)
      = decodeLE (m.m_buffer.take cfg.len_bytes) := by
    rw [take_agree _ _ _ _ (le_max_left _ _) hK]
  cases hok : m.m_ok with
  | false => simp [in_message.pop, truncated_to_size, hok]
  | true =>
    cases htags : cfg.use_tags with
    | true =>
      simp only [in_message.pop, truncated_to_size, htags, if_true, true_and]
      simp only [if_neg (show ¬ (m.m_ok = false) by simp [hok]), hsize2]
      by_cases hg : decodeLE (m.m_buffer.take cfg.len_bytes) < m.m_offset + (1 + k)
      · simp only [if_pos hg]
      · simp only [if_neg hg]
        have ho : m.m_offset + (1 + k) ≤ in_message.size cfg m := Nat.le_of_not_lt hg
        have htagbeq : (m.m_buffer.take
              (max cfg.len_bytes (in_message.size cfg m)) ++ junk).getD m.m_offset 0
            = m.m_buffer.getD m.m_offset 0 :=
          getD_agree _ _ _ _ (by omega) hK
        simp only [htagbeq]
        by_cases ht : m.m_buffer.getD m.m_offset 0 = tagByte t
        · simp only [if_neg (not_not_intro ht)]
          have hval : ((m.m_buffer.take
                (max cfg.len_bytes (in_message.size cfg m)) ++ junk).drop
                (m.m_offset + 1)).take k
              = (m.m_buffer.drop (m.m_offset + 1)).take k :=
            window_agree _ _ _ _ _ (by omega) hK
          simp only [hval]
        · simp only [if_pos ht]
    | false =>
      simp only [in_message.pop, truncated_to_size, htags, Bool.false_eq_true,
        if_false, false_and, Nat.add_zero, Nat.zero_add]
      simp only [if_neg (show ¬ (m.m_ok = false) by simp [hok]), hsize2]
      by_cases hg : decodeLE (m.m_buffer.take cfg.len_bytes) < m.m_offset + k
      · simp only [if_pos hg]
      · simp only [if_neg hg]
        have ho : m.m_offset + k ≤ in_message.size cfg m := Nat.le_of_not_lt hg
        have hval : ((m.m_buffer.take
              (max cfg.len_bytes (in_message.size cfg m)) ++ junk).drop
              m.m_offset).take k
            = (m.m_buffer.drop m.m_offset).take k :=
          window_agree _ _ _ _ _ (by omega) hK
        simp only [hval]

/-- C4: reader bounds safety. For every reader operation and buffer contents:
the minimum required bytes are checked against the declared length before any
payload byte is read (a failing check yields TooShort with no cursor movement
and no other effect); the blob payload size from the length sub-field is
re-validated against the declared length before any byte is copied (a failing
re-validation yields TooShort with the output argument untouched); the cursor
is monotonically non-decreasing, and it never exceeds the declared length once
at or below it; and every operation's observable outcome (fail flag, cursor,
extracted bytes and failure value) is unchanged when all bytes beyond the
declared length are replaced by arbitrary junk — no read accesses bytes beyond
the declared length. -/
theorem c4_reader_bounds_safety (cfg : msg_config) (m : in_message)
    (arg junk : List Nat) (k : Nat) (t : type_tag) :
    (m.m_ok = true →
      in_message.size cfg m < m.m_offset + (if cfg.use_tags then 2 else 1) →
      in_message.read_str cfg m arg
        = ({ m with m_ok := false }, [],
            some (.too_short (m.m_offset + (if cfg.use_tags then 2 else 1))
              (in_message.size cfg m)))) ∧
    (m.m_ok = true →
      in_message.size cfg m
          < m.m_offset + ((if cfg.use_tags then 1 else 0) + cfg.len_bytes) →
      in_message.read_blob cfg m arg
        = ({ m with m_ok := false }, arg,
            some (.too_short
              (m.m_offset + ((if cfg.use_tags then 1 else 0) + cfg.len_bytes))
              (in_message.size cfg m)))) ∧
    (m.m_ok = true →
      in_message.size cfg m < m.m_offset + ((if cfg.use_tags then 1 else 0) + k) →
      in_message.pop cfg m k t
        = ({ m with m_ok := false }, 0,
            some (.too_short (m.m_offset + ((if cfg.use_tags then 1 else 0) + k))
              (in_message.size cfg m)))) ∧
    (m.m_ok = true →
      ¬ (in_message.size cfg m
          < m.m_offset + ((if cfg.use_tags then 1 else 0) + cfg.len_bytes)) →
      (cfg.use_tags = true → m.m_buffer.getD m.m_offset 0 = tagByte .blob) →
      in_message.size cfg m
          < m.m_offset + (if cfg.use_tags then 1 else 0) + cfg.len_bytes
            + decodeLE ((m.m_buffer.drop
                (m.m_offset + (if cfg.use_tags then 1 else 0))).take cfg.len_bytes) →
      in_message.read_blob cfg m arg
        = ({ m with
              m_ok := false
              m_offset := m.m_offset + (if cfg.use_tags then 1 else 0)
                + cfg.len_bytes }, arg,
            some (.too_short
              (m.m_offset + (if cfg.use_tags then 1 else 0) + cfg.len_bytes
                + decodeLE ((m.m_buffer.drop
                    (m.m_offset + (if cfg.use_tags then 1 else 0))).take cfg.len_bytes))
              (in_message.size cfg m)))) ∧
    m.m_offset ≤ (in_message.read_str cfg m arg).1.m_offset ∧
    m.m_offset ≤ (in_message.read_blob cfg m arg).1.m_offset ∧
    m.m_offset ≤ (in_message.pop cfg m k t).1.m_offset ∧
    (m.m_offset ≤ in_message.size cfg m →
      (in_message.read_str cfg m arg).1.m_offset ≤ in_message.size cfg m) ∧
    (m.m_offset ≤ in_message.size cfg m →
      (in_message.read_blob cfg m arg).1.m_offset ≤ in_message.size cfg m) ∧
    (m.m_offset ≤ in_message.size cfg m →
      (in_message.pop cfg m k t).1.m_offset ≤ in_message.size cfg m) ∧
    (cfg.len_bytes ≤ m.m_buffer.length → in_message.size cfg m ≤ m.m_buffer.length →
      ((in_message.read_str cfg (truncated_to_size cfg m junk) arg).1.m_ok,
        (in_message.read_str cfg (truncated_to_size cfg m junk) arg).1.m_offset,
        (in_message.read_str cfg (truncated_to_size cfg m junk) arg).2)
      = ((in_message.read_str cfg m arg).1.m_ok,
        (in_message.read_str cfg m arg).1.m_offset,
        (in_message.read_str cfg m arg).2)) ∧
    (cfg.len_bytes ≤ m.m_buffer.length → in_message.size cfg m ≤ m.m_buffer.length →
      ((in_message.read_blob cfg (truncated_to_size cfg m junk) arg).1.m_ok,
        (in_message.read_blob cfg (truncated_to_size cfg m junk) arg).1.m_offset,
        (in_message.read_blob cfg (truncated_to_size cfg m junk) arg).2)
      = ((in_message.read_blob cfg m arg).1.m_ok,
        (in_message.read_blob cfg m arg).1.m_offset,
        (in_message.read_blob cfg m arg).2)) ∧
    (cfg.len_bytes ≤ m.m_buffer.length → in_message.size cfg m ≤ m.m_buffer.length →
      ((in_message.pop cfg (truncated_to_size cfg m junk) k t).1.m_ok,
        (in_message.pop cfg (truncated_to_size cfg m junk) k t).1.m_offset,
        (in_message.pop cfg (truncated_to_size cfg m junk) k t).2)
      = ((in_message.pop cfg m k t).1.m_ok,
        (in_message.pop cfg m k t).1.m_offset,
        (in_message.pop cfg m k t).2)) := by
  refine ⟨?_, ?_, ?_, ?_,
    (read_str_offset_facts cfg m arg).1, (read_blob_offset_facts cfg m arg).1,
    (pop_offset_facts cfg m k t).1,
    (read_str_offset_facts cfg m arg).2, (read_blob_offset_facts cfg m arg).2,
    (pop_offset_facts cfg m k t).2,
    read_str_agree cfg m arg junk, read_blob_agree cfg m arg junk,
    pop_agree cfg m junk k t⟩
  · intro hok hg
    simp only [in_message.size] at hg ⊢
    simp only [in_message.read_str]
    rw [if_neg (by simp [hok]), if_pos hg]
  · intro hok hg
    simp only [in_message.size] at hg ⊢
    simp only [in_message.read_blob]
    rw [if_neg (by simp [hok]), if_pos hg]
  · intro hok hg
    simp only [in_message.size] at hg ⊢
    simp only [in_message.pop]
    rw [if_neg (by simp [hok]), if_pos hg]
  · intro hok hg htag hre
    simp only [in_message.size] at hg hre ⊢
    cases htags : cfg.use_tags with
    | true =>
      rw [htags] at hg hre
      simp only [if_true] at hg hre ⊢
      have hg2 : ¬ (decodeLE (m.m_buffer.take cfg.len_bytes)
          < m.m_offset + (1 + cfg.len_bytes)) := hg
      have ht := htag htags
      simp only [in_message.read_blob, htags, if_true, true_and]
      rw [if_neg (by simp [hok]), if_neg hg2]
      rw [if_neg (not_not_intro ht), if_pos hre]
    | false =>
      rw [htags] at hg hre
      simp only [Bool.false_eq_true, if_false, Nat.add_zero, Nat.zero_add] at hg hre ⊢
      simp only [in_message.read_blob, htags, Bool.false_eq_true, if_false, false_and,
        Nat.add_zero, Nat.zero_add]
      rw [if_neg (by simp [hok]), if_neg hg, if_pos hre]

/-- C4 witness: an untagged reader over [2,0,65] (declared length 2, cursor 2)
rejects a string read with TooShort — required 3, declared 2 — latching failed
without moving the cursor. -/
theorem c4_reader_bounds_safety_witness :
    in_message.read_str ⟨false, 2⟩ ⟨true, [2, 0, 65], 2⟩ [9]
      = (⟨false, [2, 0, 65], 2⟩, [], some (.too_short 3 2)) :=
  (c4_reader_bounds_safety ⟨false, 2⟩ ⟨true, [2, 0, 65], 2⟩ [9] [7] 4 .u32).1
    rfl (by decide)
